import Mathlib

/-!
# pluma: rate limiter, rate-limit parsing and the contact handler

A shallow embedding of the Go sources

* `internal/server/ratelimit.go` (`RateLimiter`, `Allow`, the body of `cleanupLoop`),
* `internal/config/config.go` (`ParseRateLimit`, `Load` after parsing, `expandEnv`),
* `internal/server/http.go` (`GetClientIP`),
* `internal/server/server.go` (`New`, `contactHandler`, `ServeHTTP`, `isOriginAllowed`),
* `internal/telegram/telegram.go` (`escapeHTML`),

followed by theorems about them.

Conventions.  A Go `string` is a Lean `String`; indexing by byte and by character agree on
the ASCII separators the code looks for (`'/'`, `','`, `'$'`, `'{'`, `'}'`); `escapeHTML`,
which the claim about it takes over all byte strings, is on lists of bytes.  A `time.Time` is an integer count
of nanoseconds on the process clock and a `time.Duration` an integer count of nanoseconds.
The mutex of the limiter is not represented: every operation below is one critical section,
and operations are applied one after another.
-/

namespace Pluma

/-! ## Time -/

/-- Go `time.Duration`: nanoseconds. -/
abbrev Duration := Int

/-- Go `time.Time`, as nanoseconds on the process clock. -/
abbrev Time := Int

/-- Go `time.Second`. -/
def Second : Duration := 1000000000

/-- Go `time.Minute`. -/
def Minute : Duration := 60 * Second

/-- Go `time.Hour`. -/
def Hour : Duration := 60 * Minute

/-! ## `internal/server/ratelimit.go` -/

/-- The limiter: `requests map[string]time.Time`, keyed by `ip + ":" + path`.
A Go map holds at most one value per key, which `AList` carries as its invariant. -/
structure RateLimiter where
  requests : AList (fun _ : String => Time)

/-- `NewRateLimiter`: an empty map (the cleanup goroutine it starts is `cleanupPass`,
run whenever its ticker fires). -/
def NewRateLimiter : RateLimiter := ⟨∅⟩

/-- `RateLimiter.Allow`, run at the instant `now` (both clock reads of the body,
`time.Since(last)` and `time.Now()`, are taken at `now`).  Returns the boolean result and
the limiter after the call. -/
def RateLimiter.Allow (rl : RateLimiter) (ip path : String) (window : Duration)
    (now : Time) : Bool × RateLimiter :=
  let key := ip ++ ":" ++ path
  match rl.requests.lookup key with
  | none => (true, ⟨rl.requests.insert key now⟩)
  | some last =>
    if now - last ≥ window then (true, ⟨rl.requests.insert key now⟩)
    else (false, rl)

/-- One iteration of the `for range ticker.C` loop of `RateLimiter.cleanupLoop`, run at
the instant `now`: ranges over the entries and deletes each key whose value is before
`now - 1h`. -/
def RateLimiter.cleanupPass (rl : RateLimiter) (now : Time) : RateLimiter :=
  let cutoff := now + (-1) * Hour
  ⟨rl.requests.entries.foldl
    (fun acc e => if e.2 < cutoff then acc.erase e.1 else acc) rl.requests⟩

/-! ## `internal/config/config.go` -/

/-- Go `strings.Split(s, sep)` for a one-character separator, on the characters of `s`:
the pieces between the separators, always at least one piece. -/
def stringsSplit (sep : Char) : List Char → List (List Char)
  | [] => [[]]
  | c :: cs =>
    if c = sep then [] :: stringsSplit sep cs
    else
      match stringsSplit sep cs with
      | [] => [[c]]
      | p :: ps => (c :: p) :: ps

/-- Value of a decimal digit character, `none` for any other character. -/
def digitValue (c : Char) : Option Nat :=
  if '0' ≤ c ∧ c ≤ '9' then some (c.toNat - '0'.toNat) else none

/-- The digit loop of `strconv`: `n = n*10 + digit`, failing on a non-digit. -/
def parseDigits : List Char → Nat → Option Nat
  | [], n => some n
  | c :: cs, n =>
    match digitValue c with
    | none => none
    | some d => parseDigits cs (n * 10 + d)

/-- Largest Go `int` (64-bit platforms). -/
def maxInt : Int := 9223372036854775807

/-- Smallest Go `int` (64-bit platforms). -/
def minInt : Int := -9223372036854775808

/-- Go `strconv.Atoi` (64-bit `int`): an optional `+` or `-`, then one or more decimal
digits, with a value in the range of `int`; `none` stands for a non-nil error (syntax or
range). -/
def Atoi (s : List Char) : Option Int :=
  match s with
  | [] => none
  | c :: cs =>
    let neg := decide (c = '-')
    let digits := if c = '-' ∨ c = '+' then cs else s
    if digits = [] then none
    else
      match parseDigits digits 0 with
      | none => none
      | some n =>
        let v : Int := if neg then -(n : Int) else (n : Int)
        if minInt ≤ v ∧ v ≤ maxInt then some v else none

/-- The three errors `ParseRateLimit` builds with `fmt.Errorf`, each with the string it
prints. -/
inductive RateLimitError where
  | format (rl : String)
  | count (part : String)
  | unit (part : String)
  deriving DecidableEq, Repr

/-- `config.ParseRateLimit`: the Go pair `(time.Duration, error)`, the error `none` for
`nil`. -/
def ParseRateLimit (rl : String) : Duration × Option RateLimitError :=
  match stringsSplit '/' rl.data with
  | [count, unit] =>
    match Atoi count with
    | none => (0, some (.count (String.mk count)))
    | some n =>
      if n ≤ 0 then (0, some (.count (String.mk count)))
      else if unit = ['m'] then (Int.tdiv Minute n, none)
      else if unit = ['h'] then (Int.tdiv Hour n, none)
      else (0, some (.unit (String.mk unit)))
  | _ => (0, some (.format rl))

/-- `config.Route`. -/
structure Route where
  Path : String
  BotToken : String
  ChatID : String
  RateLimit : String
  deriving DecidableEq, Repr

/-- `config.ServerConfig`. -/
structure ServerConfig where
  Port : Int
  RateLimit : String
  AllowedOrigins : String
  deriving DecidableEq, Repr

/-- `config.Config`. -/
structure Config where
  Server : ServerConfig
  Routes : List Route
  deriving DecidableEq, Repr

/-! ## `internal/server/http.go` -/

/-- The parts of an `*http.Request` the handlers read: the method, the first value of the
`X-Forwarded-For` and `X-Real-IP` headers (`""` when absent, as `Header.Get` gives),
`RemoteAddr` and the body. -/
structure Request where
  Method : String
  XForwardedFor : String
  XRealIP : String
  RemoteAddr : String
  Body : String
  deriving DecidableEq, Repr

/-- `server.ContactRequest`. -/
structure ContactRequest where
  Name : String
  Email : String
  Message : String
  Source : String
  deriving DecidableEq, Repr

/-- The arguments of one call of `telegram.SendMessage`. -/
structure Notification where
  botToken : String
  chatID : String
  name : String
  email : String
  message : String
  source : String
  deriving DecidableEq, Repr

/-- What the handlers call outside this repository's own logic, taken as given:
`net.SplitHostPort` (`none` for an error, else host and port), the JSON decoding of a
request body into a `ContactRequest` (`none` for an error), and the delivery done by
`telegram.SendMessage` (`none` for a nil error, else the error's text). -/
structure World where
  SplitHostPort : String → Option (String × String)
  decodeJSON : String → Option ContactRequest
  SendMessage : Notification → Option String

/-- `server.GetClientIP`. -/
def GetClientIP (w : World) (r : Request) : String :=
  if r.XForwardedFor ≠ "" then
    String.mk (r.XForwardedFor.data.takeWhile (fun c => c ≠ ','))
  else if r.XRealIP ≠ "" then r.XRealIP
  else
    match w.SplitHostPort r.RemoteAddr with
    | none => r.RemoteAddr
    | some (ip, _) => ip

/-! ## `internal/server/server.go` -/

/-- Go `http.StatusOK`. -/
def StatusOK : Nat := 200

/-- Go `http.StatusBadRequest`. -/
def StatusBadRequest : Nat := 400

/-- Go `http.StatusTooManyRequests`. -/
def StatusTooManyRequests : Nat := 429

/-- Go `http.StatusInternalServerError`. -/
def StatusInternalServerError : Nat := 500

/-- The JSON payload a handler writes: `ErrorResponse` or `SuccessResponse`. -/
inductive Payload where
  | ErrorResponse (Error : String)
  | SuccessResponse (Status : String)
  deriving DecidableEq, Repr

/-- What one run of a contact handler leaves behind: the status code and payload written,
the limiter afterwards, and the calls of `telegram.SendMessage` it made, in order. -/
structure Outcome where
  status : Nat
  payload : Payload
  limiter : RateLimiter
  notified : List Notification

/-- The handler `Server.contactHandler(route, window)` returns, run on request `r` at the
instant `now` with the server's limiter in state `limiter`. -/
def contactHandler (w : World) (route : Route) (window : Duration) (limiter : RateLimiter)
    (r : Request) (now : Time) : Outcome :=
  let ip := GetClientIP w r
  match limiter.Allow ip route.Path window now with
  | (false, limiter) =>
    ⟨StatusTooManyRequests, .ErrorResponse "Rate limit exceeded. Please try again later.",
      limiter, []⟩
  | (true, limiter) =>
    match w.decodeJSON r.Body with
    | none =>
      ⟨StatusBadRequest,
        .ErrorResponse "Invalid request body. Expected JSON with name, email, and message.",
        limiter, []⟩
    | some req =>
      if req.Name = "" ∨ req.Email = "" ∨ req.Message = "" then
        ⟨StatusBadRequest, .ErrorResponse "All fields (name, email, message) are required.",
          limiter, []⟩
      else
        let call : Notification :=
          ⟨route.BotToken, route.ChatID, req.Name, req.Email, req.Message, req.Source⟩
        match w.SendMessage call with
        | some _ =>
          ⟨StatusInternalServerError,
            .ErrorResponse "Failed to send message. Please try again later.", limiter, [call]⟩
        | none => ⟨StatusOK, .SuccessResponse "Message sent successfully.", limiter, [call]⟩

/-- How `server.New` ends: a run-time panic (a slice expression out of range), the wrapped
parse error of a route, or the server, given by the `(route, window)` pairs its contact
handlers were built from, in registration order. -/
inductive NewResult where
  | panic
  | error (path : String) (err : RateLimitError)
  | ok (handlers : List (Route × Duration))
  deriving DecidableEq, Repr

/-- The route loop of `server.New`; `registered` are the handlers built so far.  The log
line slices `r.BotToken[:6]` and `r.BotToken[len(r.BotToken)-4:]`, which panics for a
token shorter than six bytes.  Registration with the `ServeMux` is taken to succeed. -/
def New.routes : List Route → List (Route × Duration) → NewResult
  | [], registered => .ok registered
  | r :: rest, registered =>
    match ParseRateLimit r.RateLimit with
    | (_, some err) => .error r.Path err
    | (window, none) =>
      if r.BotToken.utf8ByteSize < 6 then .panic
      else New.routes rest (registered ++ [(r, window)])

/-- `server.New`. -/
def New (cfg : Config) : NewResult := New.routes cfg.Routes []

/-! ## A sample deployment, for concrete checks -/

/-- A route as the configuration file gives it. -/
def sampleRoute : Route := ⟨"/contact", "123456:ABCDEF", "42", "5/m"⟩

/-- A request body with all three fields. -/
def sampleBody : String :=
  "\x7b\"name\":\"Ada\",\"email\":\"ada@example.org\",\"message\":\"Hello\"\x7d"

/-- A request body with an empty message. -/
def sampleBodyNoMessage : String :=
  "\x7b\"name\":\"Ada\",\"email\":\"ada@example.org\",\"message\":\"\"\x7d"

/-- A world in which peer addresses have no port to strip, the two sample bodies decode to
their fields and every other body is rejected, and delivery succeeds. -/
def sampleWorld : World where
  SplitHostPort := fun _ => none
  decodeJSON := fun body =>
    if body = sampleBody then some ⟨"Ada", "ada@example.org", "Hello", ""⟩
    else if body = sampleBodyNoMessage then some ⟨"Ada", "ada@example.org", "", ""⟩
    else none
  SendMessage := fun _ => none

/-- A POST of `body` from the peer `10.0.0.1`, no forwarding headers. -/
def samplePost (body : String) : Request := ⟨"POST", "", "", "10.0.0.1", body⟩

/-! ## Runs of the limiter -/

/-- One operation on the limiter: a call of `Allow`, or one pass of the cleanup loop, each
with the instant it runs at. -/
inductive Event where
  | allow (ip path : String) (window : Duration) (now : Time)
  | sweep (now : Time)
  deriving DecidableEq, Repr

/-- The instant an event runs at. -/
def Event.time : Event → Time
  | .allow _ _ _ now => now
  | .sweep now => now

/-- Whether the event is a call of `Allow`. -/
def Event.isAllow : Event → Bool
  | .allow _ _ _ _ => true
  | .sweep _ => false

/-- The events applied to the limiter one after another, as the mutex serializes them;
the result is the list of booleans the `Allow` calls returned, in order. -/
def run (rl : RateLimiter) : List Event → List Bool
  | [] => []
  | .allow ip path window now :: rest =>
    (rl.Allow ip path window now).1 :: run (rl.Allow ip path window now).2 rest
  | .sweep now :: rest => run (rl.cleanupPass now) rest


/-! ## `internal/config/config.go`: `Load` after parsing, and `expandEnv` -/

/-- The errors `Load` returns once the document has parsed: a route without path, bot
token or chat id (with the route's index, and its path where the message prints it), or
no route at all. -/
inductive LoadError where
  | pathRequired (i : Nat)
  | botTokenRequired (i : Nat) (path : String)
  | chatIDRequired (i : Nat) (path : String)
  | noRoutes
  deriving DecidableEq, Repr

/-- The `// Defaults` block of `Load`. -/
def Load.defaults (cfg : Config) : Config :=
  { Server :=
      { Port := if cfg.Server.Port = 0 then 8080 else cfg.Server.Port
        RateLimit := if cfg.Server.RateLimit = "" then "1/m" else cfg.Server.RateLimit
        AllowedOrigins :=
          if cfg.Server.AllowedOrigins = "" then "*" else cfg.Server.AllowedOrigins }
    Routes := cfg.Routes }

/-- The `for i, r := range cfg.Routes` loop of `Load`, from index `i` on: the first route
with an empty required field ends the loop with its error; a route with an empty
`RateLimit` gets `serverRateLimit`. -/
def Load.routes (serverRateLimit : String) : Nat → List Route → Except LoadError (List Route)
  | _, [] => .ok []
  | i, r :: rest =>
    if r.Path = "" then .error (.pathRequired i)
    else if r.BotToken = "" then .error (.botTokenRequired i r.Path)
    else if r.ChatID = "" then .error (.chatIDRequired i r.Path)
    else
      match Load.routes serverRateLimit (i + 1) rest with
      | .error e => .error e
      | .ok rest' =>
        .ok ((if r.RateLimit = "" then { r with RateLimit := serverRateLimit } else r) :: rest')

/-- The part of `config.Load` that follows `yaml.Unmarshal`, on the parsed `cfg`:
defaults, the route loop, then the check that there is at least one route. -/
def Load.validate (cfg : Config) : Except LoadError Config :=
  let cfg := Load.defaults cfg
  match Load.routes cfg.Server.RateLimit 0 cfg.Routes with
  | .error e => .error e
  | .ok routes =>
    if routes.length = 0 then .error .noRoutes
    else .ok { cfg with Routes := routes }

/-- The inner loop of `expandEnv`, `for j := i + 2; j < len(s); j++`, on the characters
from `i + 2` on: the offset of the first `'}'`, if there is one. -/
def expandEnv.closing : List Char → Option Nat
  | [] => none
  | c :: cs => if c = '}' then some 0 else (expandEnv.closing cs).map (· + 1)

/-- The outer loop of `expandEnv` on the characters from the index `i` on.  `skip` is the
number of characters between `i` and the index the loop continues at after a
substitution (`i = end + 1`); `getenv` is `os.Getenv`.  The test `end > 0` of the source
holds whenever a closing brace was found, `end` being at least `i + 2`. -/
def expandEnv.loop (getenv : String → String) : Nat → List Char → List Char
  | _, [] => []
  | skip + 1, _ :: cs => expandEnv.loop getenv skip cs
  | 0, c :: cs =>
    if c = '$' ∧ cs.head? = some '{' then
      match expandEnv.closing cs.tail with
      | some n =>
        (getenv (String.mk (cs.tail.take n))).data ++ expandEnv.loop getenv (n + 2) cs
      | none => c :: expandEnv.loop getenv 0 cs
    else c :: expandEnv.loop getenv 0 cs

/-- `config.expandEnv`, with `os.Getenv` given as `getenv` (the empty string for an unset
variable). -/
def expandEnv (getenv : String → String) (s : String) : String :=
  String.mk (expandEnv.loop getenv 0 s.data)

/-! ## `internal/server/server.go`: CORS -/

/-- Go `unicode.IsSpace`. -/
def isSpace (c : Char) : Bool :=
  let n := c.toNat
  (0x09 ≤ n ∧ n ≤ 0x0D) ∨ n = 0x20 ∨ n = 0x85 ∨ n = 0xA0 ∨ n = 0x1680 ∨
    (0x2000 ≤ n ∧ n ≤ 0x200A) ∨ n = 0x2028 ∨ n = 0x2029 ∨ n = 0x202F ∨ n = 0x205F ∨
    n = 0x3000

/-- Go `strings.TrimSpace`: leading and trailing white space removed. -/
def TrimSpace (s : List Char) : List Char :=
  ((s.dropWhile isSpace).reverse.dropWhile isSpace).reverse

/-- `Server.isOriginAllowed`, for the configured allowed-origins value. -/
def isOriginAllowed (allowedOrigins origin : String) : Bool :=
  if allowedOrigins = "*" then true
  else (stringsSplit ',' allowedOrigins.data).any (fun o => String.mk (TrimSpace o) = origin)

/-- What `Server.ServeHTTP` does before it hands the request to the mux: the CORS headers
it sets (`none` for a header it does not set) and, for an `OPTIONS` request, the status
204 it answers with instead of calling the mux. -/
structure Preflight where
  AccessControlAllowOrigin : Option String
  AccessControlAllowMethods : Option String
  AccessControlAllowHeaders : Option String
  status : Option Nat
  deriving DecidableEq, Repr

/-- `Server.ServeHTTP` up to the call of the mux, for the configured allowed-origins value,
the request's `Origin` header (`""` when absent) and its method. -/
def ServeHTTP (allowedOrigins origin method : String) : Preflight :=
  let allowed := isOriginAllowed allowedOrigins origin
  { AccessControlAllowOrigin :=
      if allowed then some origin
      else if allowedOrigins = "*" then some "*"
      else none
    AccessControlAllowMethods := some "POST, OPTIONS"
    AccessControlAllowHeaders := some "Content-Type"
    status := if method = "OPTIONS" then some 204 else none }

/-! ## `internal/telegram/telegram.go` -/

/-- `telegram.escapeHTML`, byte by byte: `&`, `<` and `>` become `&amp;`, `&lt;` and
`&gt;`, every other byte is copied. -/
def escapeHTML : List UInt8 → List UInt8
  | [] => []
  | b :: rest =>
    if b = '&'.toUInt8 then "&amp;".data.map Char.toUInt8 ++ escapeHTML rest
    else if b = '<'.toUInt8 then "&lt;".data.map Char.toUInt8 ++ escapeHTML rest
    else if b = '>'.toUInt8 then "&gt;".data.map Char.toUInt8 ++ escapeHTML rest
    else b :: escapeHTML rest


/-- The pass that undoes `escapeHTML`, from left to right: each `&amp;`, `&lt;`, `&gt;`
is replaced by `&`, `<`, `>`, every other byte is copied.  `skip` counts the bytes of an
entity still to pass over. -/
def unescapeHTML.loop : Nat → List UInt8 → List UInt8
  | _, [] => []
  | skip + 1, _ :: rest => unescapeHTML.loop skip rest
  | 0, b :: rest =>
    if ("&amp;".data.map Char.toUInt8).isPrefixOf (b :: rest) then
      '&'.toUInt8 :: unescapeHTML.loop 4 rest
    else if ("&lt;".data.map Char.toUInt8).isPrefixOf (b :: rest) then
      '<'.toUInt8 :: unescapeHTML.loop 3 rest
    else if ("&gt;".data.map Char.toUInt8).isPrefixOf (b :: rest) then
      '>'.toUInt8 :: unescapeHTML.loop 3 rest
    else b :: unescapeHTML.loop 0 rest

/-- The three entities replaced back by the bytes they stand for. -/
def unescapeHTML (s : List UInt8) : List UInt8 := unescapeHTML.loop 0 s

/-! ## Theorems: the limiter -/

/-- `Allow` in terms of the stored entry: the result. -/
theorem allow_fst (rl : RateLimiter) (ip path : String) (window : Duration) (now : Time) :
    (rl.Allow ip path window now).1 =
      match rl.requests.lookup (ip ++ ":" ++ path) with
      | none => true
      | some last => decide (now - last ≥ window) := by
  unfold RateLimiter.Allow
  cases h : rl.requests.lookup (ip ++ ":" ++ path) with
  | none => simp [h]
  | some last => by_cases hw : now - last ≥ window <;> simp [h, hw]

/-- `Allow` in terms of the stored entry: the limiter afterwards. -/
theorem allow_snd (rl : RateLimiter) (ip path : String) (window : Duration) (now : Time) :
    (rl.Allow ip path window now).2 =
      if (rl.Allow ip path window now).1 = true then
        ⟨rl.requests.insert (ip ++ ":" ++ path) now⟩
      else rl := by
  unfold RateLimiter.Allow
  cases h : rl.requests.lookup (ip ++ ":" ++ path) with
  | none => simp [h]
  | some last => by_cases hw : now - last ≥ window <;> simp [h, hw]

/-- Looking a key up after inserting at `key`. -/
theorem lookup_insert_eq_ite (m : AList (fun _ : String => Time)) (key k : String)
    (v : Time) :
    (m.insert key v).lookup k = if k = key then some v else m.lookup k := by
  by_cases hk : k = key
  · subst hk; simp
  · simp [hk, AList.lookup_insert_ne hk]

/-- C1: `Allow` returns true exactly when the key `ip + ":" + path` has no entry or `now`
minus the stored timestamp is at least `window`; when it returns true the limiter afterwards
is the old one with only that key set to `now`; when it returns false the limiter is
unchanged; on a freshly created limiter it returns true for every window. -/
theorem allow_contract (rl : RateLimiter) (ip path : String) (window : Duration)
    (now : Time) :
    ((rl.Allow ip path window now).1 = true ↔
      (rl.requests.lookup (ip ++ ":" ++ path) = none ∨
        ∃ last, rl.requests.lookup (ip ++ ":" ++ path) = some last ∧ now - last ≥ window)) ∧
    ((rl.Allow ip path window now).1 = true →
      (rl.Allow ip path window now).2 = ⟨rl.requests.insert (ip ++ ":" ++ path) now⟩ ∧
      ∀ k, (rl.Allow ip path window now).2.requests.lookup k =
        if k = ip ++ ":" ++ path then some now else rl.requests.lookup k) ∧
    ((rl.Allow ip path window now).1 = false → (rl.Allow ip path window now).2 = rl) ∧
    (NewRateLimiter.Allow ip path window now).1 = true := by
  refine ⟨?_, ?_, ?_, ?_⟩
  · rw [allow_fst]
    cases h : rl.requests.lookup (ip ++ ":" ++ path) with
    | none => simp
    | some last => simp
  · intro h
    have hs := allow_snd rl ip path window now
    rw [if_pos h] at hs
    refine ⟨hs, fun k => ?_⟩
    rw [hs]
    exact lookup_insert_eq_ite _ _ _ _
  · intro h
    have hs := allow_snd rl ip path window now
    rw [if_neg (by simp [h])] at hs
    exact hs
  · rw [allow_fst]
    simp [NewRateLimiter]

/-- The call that follows an admitted one on the same key compares the time passed since
that admission with the window. -/
theorem allow_next (rl : RateLimiter) (ip path : String) (window : Duration) (t t' : Time)
    (hadm : (rl.Allow ip path window t).1 = true) :
    ((rl.Allow ip path window t).2.Allow ip path window t').1 =
      decide (t' - t ≥ window) := by
  have hs := allow_snd rl ip path window t
  rw [if_pos hadm] at hs
  rw [hs, allow_fst]
  simp only [AList.lookup_insert]

/-- C2: once `Allow(ip, path, window)` has returned true at `t`, the next call for the same
key, with no call in between, returns false at any `t' < t + window` and true at any
`t' ≥ t + window`. -/
theorem allow_after_admission (rl : RateLimiter) (ip path : String) (window : Duration)
    (t t' : Time) (hadm : (rl.Allow ip path window t).1 = true) :
    (t' < t + window → ((rl.Allow ip path window t).2.Allow ip path window t').1 = false) ∧
    (t' ≥ t + window → ((rl.Allow ip path window t).2.Allow ip path window t').1 = true) := by
  rw [allow_next rl ip path window t t' hadm]
  constructor
  · intro h
    simp only [decide_eq_false_iff_not, not_le, ge_iff_le]
    linarith
  · intro h
    simp only [decide_eq_true_eq, ge_iff_le]
    linarith

/-- C2, at a concrete input: a first call at time 100 with window 12 is admitted, a second
at 105 is refused and one at 112 is admitted. -/
theorem allow_after_admission_witness :
    (NewRateLimiter.Allow "10.0.0.1" "/contact" 12 100).1 = true ∧
    (((NewRateLimiter.Allow "10.0.0.1" "/contact" 12 100).2.Allow
        "10.0.0.1" "/contact" 12 105).1 = false) ∧
    (((NewRateLimiter.Allow "10.0.0.1" "/contact" 12 100).2.Allow
        "10.0.0.1" "/contact" 12 112).1 = true) :=
  ⟨by decide,
    (allow_after_admission NewRateLimiter "10.0.0.1" "/contact" 12 100 105 (by decide)).1
      (by decide),
    (allow_after_admission NewRateLimiter "10.0.0.1" "/contact" 12 100 112 (by decide)).2
      (by decide)⟩


/-- Two keys built on the same route are equal only for equal identities, and two keys
built on the same identity only for equal routes. -/
theorem key_injective_componentwise (i1 r1 i2 r2 : String)
    (h : (r1 = r2 ∧ i1 ≠ i2) ∨ (i1 = i2 ∧ r1 ≠ r2)) :
    i1 ++ ":" ++ r1 ≠ i2 ++ ":" ++ r2 := by
  intro heq
  have hd : (i1.data ++ ":".data) ++ r1.data = (i2.data ++ ":".data) ++ r2.data := by
    have := congrArg String.data heq
    simpa [String.data_append] using this
  rcases h with ⟨hr, hi⟩ | ⟨hi, hr⟩
  · subst hr
    have h1 := List.append_cancel_right (List.append_cancel_right hd)
    exact hi (String.ext h1)
  · subst hi
    have h1 := List.append_cancel_left hd
    exact hr (String.ext h1)

/-- A call of `Allow` on another key changes neither the result of a call on this key nor
the entry that call leaves for it. -/
theorem allow_frame (rl : RateLimiter) (i1 r1 i2 r2 : String) (w w' : Duration)
    (t t' : Time) (hne : i1 ++ ":" ++ r1 ≠ i2 ++ ":" ++ r2) :
    ((rl.Allow i2 r2 w' t').2.Allow i1 r1 w t).1 = (rl.Allow i1 r1 w t).1 ∧
    ((rl.Allow i2 r2 w' t').2.Allow i1 r1 w t).2.requests.lookup (i1 ++ ":" ++ r1) =
      (rl.Allow i1 r1 w t).2.requests.lookup (i1 ++ ":" ++ r1) := by
  have hlook : (rl.Allow i2 r2 w' t').2.requests.lookup (i1 ++ ":" ++ r1) =
      rl.requests.lookup (i1 ++ ":" ++ r1) := by
    rw [allow_snd]
    split
    · exact AList.lookup_insert_ne hne
    · rfl
  have hfst : ((rl.Allow i2 r2 w' t').2.Allow i1 r1 w t).1 = (rl.Allow i1 r1 w t).1 := by
    rw [allow_fst, allow_fst, hlook]
  refine ⟨hfst, ?_⟩
  generalize (rl.Allow i2 r2 w' t').2 = rl' at hlook hfst
  rw [allow_snd rl', allow_snd rl, hfst]
  split
  · simp
  · exact hlook

/-- C3, as amended: a call `Allow(i2, r2, w')` made just before does not change the result
of `Allow(i1, r1, w)`, nor the entry it leaves for its key, whenever the two concatenated
keys `i1 + ":" + r1` and `i2 + ":" + r2` differ; they differ in particular for the same
route with different identities and for the same identity with different routes. -/
theorem allow_noninterference (rl : RateLimiter) (i1 r1 i2 r2 : String) (w w' : Duration)
    (t t' : Time)
    (hkey : i1 ++ ":" ++ r1 ≠ i2 ++ ":" ++ r2 ∨ (r1 = r2 ∧ i1 ≠ i2) ∨ (i1 = i2 ∧ r1 ≠ r2)) :
    ((rl.Allow i2 r2 w' t').2.Allow i1 r1 w t).1 = (rl.Allow i1 r1 w t).1 ∧
    ((rl.Allow i2 r2 w' t').2.Allow i1 r1 w t).2.requests.lookup (i1 ++ ":" ++ r1) =
      (rl.Allow i1 r1 w t).2.requests.lookup (i1 ++ ":" ++ r1) := by
  rcases hkey with h | h
  · exact allow_frame rl i1 r1 i2 r2 w w' t t' h
  · exact allow_frame rl i1 r1 i2 r2 w w' t t' (key_injective_componentwise i1 r1 i2 r2 h)

/-- C3, at a concrete input: two identities on one route. -/
theorem allow_noninterference_witness :
    ((NewRateLimiter.Allow "10.0.0.2" "/contact" 60 100).2.Allow
        "10.0.0.1" "/contact" 60 100).1 =
      (NewRateLimiter.Allow "10.0.0.1" "/contact" 60 100).1 ∧
    ((NewRateLimiter.Allow "10.0.0.2" "/contact" 60 100).2.Allow
        "10.0.0.1" "/contact" 60 100).2.requests.lookup ("10.0.0.1" ++ ":" ++ "/contact") =
      (NewRateLimiter.Allow "10.0.0.1" "/contact" 60 100).2.requests.lookup
        ("10.0.0.1" ++ ":" ++ "/contact") :=
  allow_noninterference NewRateLimiter "10.0.0.1" "/contact" "10.0.0.2" "/contact" 60 60
    100 100 (Or.inr (Or.inl ⟨rfl, by decide⟩))

/-- C3 as stated fails: the pairs `("10.0.0.1", "/a:/b")` and `("10.0.0.1:/a", "/b")` are
different, yet they share the key `"10.0.0.1:/a:/b"`, so the call for the first pair is
admitted on a fresh limiter and refused when the call for the second pair came just
before. -/
theorem allow_interference_counterexample :
    ("10.0.0.1", "/a:/b") ≠ ("10.0.0.1:/a", "/b") ∧
    (NewRateLimiter.Allow "10.0.0.1" "/a:/b" 60 100).1 = true ∧
    ((NewRateLimiter.Allow "10.0.0.1:/a" "/b" 60 100).2.Allow
        "10.0.0.1" "/a:/b" 60 100).1 = false := by
  decide

/-- While the key holds `t0` and every later call comes before `t0 + w`, each call is
refused. -/
theorem run_cooling (rl : RateLimiter) (ip path : String) (w : Duration) (t0 : Time)
    (ts : List Time) (hlast : rl.requests.lookup (ip ++ ":" ++ path) = some t0)
    (hwin : ∀ t ∈ ts, t < t0 + w) :
    run rl (ts.map (Event.allow ip path w)) = List.replicate ts.length false := by
  induction ts with
  | nil => rfl
  | cons t ts ih =>
    have ht : t < t0 + w := hwin t (List.mem_cons_self _ _)
    have hf : (rl.Allow ip path w t).1 = false := by
      rw [allow_fst, hlast]
      simp only [decide_eq_false_iff_not, not_le, ge_iff_le]
      linarith
    have hs : (rl.Allow ip path w t).2 = rl := by
      rw [allow_snd, if_neg (by simp [hf])]
    simp only [List.map_cons, run, hf, hs, List.length_cons, List.replicate_succ]
    rw [ih (fun t' ht' => hwin t' (List.mem_cons_of_mem _ ht'))]

/-- C4: `N ≥ 1` calls of `Allow` on one key, applied one after another to a limiter with no
entry for that key, all later calls at times before the first call's time plus the window:
the first call returns true and the other `N - 1` return false, so exactly one is
admitted.  (Neither the order of the later times nor the sign of the window is used.) -/
theorem one_admission_per_window (rl : RateLimiter) (ip path : String) (w : Duration)
    (t0 : Time) (ts : List Time)
    (hfresh : rl.requests.lookup (ip ++ ":" ++ path) = none)
    (hwin : ∀ t ∈ ts, t < t0 + w) :
    run rl ((t0 :: ts).map (Event.allow ip path w)) =
      true :: List.replicate ts.length false ∧
    (run rl ((t0 :: ts).map (Event.allow ip path w))).count true = 1 := by
  have h1 : (rl.Allow ip path w t0).1 = true := by
    rw [allow_fst, hfresh]
  have h2 : (rl.Allow ip path w t0).2.requests.lookup (ip ++ ":" ++ path) = some t0 := by
    rw [allow_snd, if_pos h1]
    simp
  have hrun : run rl ((t0 :: ts).map (Event.allow ip path w)) =
      true :: List.replicate ts.length false := by
    simp only [List.map_cons, run, h1]
    rw [run_cooling _ ip path w t0 ts h2 hwin]
  refine ⟨hrun, ?_⟩
  rw [hrun]
  simp [List.count_replicate]

/-- C4, at a concrete input: four calls at times 100, 100, 103, 111 with window 12. -/
theorem one_admission_per_window_witness :
    run NewRateLimiter
        (([100, 100, 103, 111] : List Time).map (Event.allow "10.0.0.1" "/contact" 12)) =
      [true, false, false, false] ∧
    (run NewRateLimiter
        (([100, 100, 103, 111] : List Time).map
          (Event.allow "10.0.0.1" "/contact" 12))).count true = 1 :=
  one_admission_per_window NewRateLimiter "10.0.0.1" "/contact" 12 100 [100, 103, 111]
    (by decide) (by decide)


/-! ## Theorems: `strings.Split` and `ParseRateLimit` -/

/-- `strings.Split` never returns an empty slice. -/
theorem stringsSplit_ne_nil (sep : Char) (s : List Char) : stringsSplit sep s ≠ [] := by
  cases s with
  | nil => simp [stringsSplit]
  | cons c cs =>
    unfold stringsSplit
    split
    · simp
    · split <;> simp

/-- A string without the separator is returned whole. -/
theorem stringsSplit_of_not_mem (sep : Char) (s : List Char) (h : sep ∉ s) :
    stringsSplit sep s = [s] := by
  induction s with
  | nil => rfl
  | cons c cs ih =>
    have hc : c ≠ sep := fun e => h (by simp [e])
    have hcs : sep ∉ cs := fun e => h (by simp [e])
    simp [stringsSplit, hc, ih hcs]

/-- The first piece ends at the first separator. -/
theorem stringsSplit_append (sep : Char) (a b : List Char) (h : sep ∉ a) :
    stringsSplit sep (a ++ sep :: b) = a :: stringsSplit sep b := by
  induction a with
  | nil => simp [stringsSplit]
  | cons c cs ih =>
    have hc : c ≠ sep := fun e => h (by simp [e])
    have hcs : sep ∉ cs := fun e => h (by simp [e])
    simp [stringsSplit, hc, ih hcs]

/-- Every string is its first piece, or its first piece, a separator and a rest that
splits into the remaining pieces. -/
theorem stringsSplit_cases (sep : Char) (s : List Char) :
    (sep ∉ s ∧ stringsSplit sep s = [s]) ∨
    ∃ a b, s = a ++ sep :: b ∧ sep ∉ a ∧ stringsSplit sep s = a :: stringsSplit sep b := by
  induction s with
  | nil => left; simp [stringsSplit]
  | cons c cs ih =>
    by_cases hc : c = sep
    · right
      refine ⟨[], cs, by simp [hc], by simp, ?_⟩
      simp [stringsSplit, hc]
    · rcases ih with ⟨hno, _⟩ | ⟨a, b, hab, ha, _⟩
      · left
        have : sep ∉ c :: cs := by
          simp only [List.mem_cons, not_or]
          exact ⟨fun e => hc e.symm, hno⟩
        exact ⟨this, stringsSplit_of_not_mem sep _ this⟩
      · right
        have hca : sep ∉ c :: a := by
          simp only [List.mem_cons, not_or]
          exact ⟨fun e => hc e.symm, ha⟩
        refine ⟨c :: a, b, by simp [hab], hca, ?_⟩
        have := stringsSplit_append sep (c :: a) b hca
        simpa [hab] using this

/-- `strings.Split` returns exactly two pieces `a`, `b` when the string is `a`, one
separator, `b`, with no separator in `a` or `b`. -/
theorem stringsSplit_eq_pair_iff (sep : Char) (s a b : List Char) :
    stringsSplit sep s = [a, b] ↔ s = a ++ sep :: b ∧ sep ∉ a ∧ sep ∉ b := by
  constructor
  · intro h
    rcases stringsSplit_cases sep s with ⟨_, h1⟩ | ⟨a', b', hs, ha', h1⟩
    · rw [h1] at h; simp at h
    · rw [h1] at h
      have hh := List.cons.inj h
      obtain ⟨haa, hb⟩ := hh
      subst haa
      rcases stringsSplit_cases sep b' with ⟨hno, h2⟩ | ⟨a2, b2, _, _, h2⟩
      · rw [h2] at hb
        have : b' = b := by simpa using hb
        subst this
        exact ⟨hs, ha', hno⟩
      · rw [h2] at hb
        have := stringsSplit_ne_nil sep b2
        simp at hb
        exact absurd hb.2 this
  · rintro ⟨hs, ha, hb⟩
    rw [hs, stringsSplit_append sep a b ha, stringsSplit_of_not_mem sep b hb]

/-- `ParseRateLimit` on a string that splits into two pieces. -/
theorem parseRateLimit_of_pair (s : String) (count unit : List Char)
    (h : stringsSplit '/' s.data = [count, unit]) :
    ParseRateLimit s =
      match Atoi count with
      | none => (0, some (.count (String.mk count)))
      | some n =>
        if n ≤ 0 then (0, some (.count (String.mk count)))
        else if unit = ['m'] then (Int.tdiv Minute n, none)
        else if unit = ['h'] then (Int.tdiv Hour n, none)
        else (0, some (.unit (String.mk unit))) := by
  unfold ParseRateLimit
  rw [h]

/-- `ParseRateLimit` on a string that does not split into two pieces. -/
theorem parseRateLimit_of_not_pair (s : String)
    (h : ∀ count unit, stringsSplit '/' s.data ≠ [count, unit]) :
    ParseRateLimit s = (0, some (.format s)) := by
  unfold ParseRateLimit
  split
  · rename_i count unit hsplit
    exact absurd hsplit (h count unit)
  · rfl

/-- `ParseRateLimit` returns a nil error, with window `w`, exactly when the string splits
into a count and a unit, the count is read by `Atoi` as some `n > 0`, and the unit is `m`
or `h`; `w` is then the unit divided by `n`. -/
theorem parseRateLimit_ok_iff (s : String) (w : Duration) :
    ParseRateLimit s = (w, none) ↔
      ∃ count unit n, stringsSplit '/' s.data = [count, unit] ∧ Atoi count = some n ∧
        0 < n ∧
        ((unit = ['m'] ∧ w = Int.tdiv Minute n) ∨ (unit = ['h'] ∧ w = Int.tdiv Hour n)) := by
  constructor
  · intro h
    by_cases hp : ∃ count unit, stringsSplit '/' s.data = [count, unit]
    · obtain ⟨count, unit, hsplit⟩ := hp
      rw [parseRateLimit_of_pair s count unit hsplit] at h
      refine ⟨count, unit, ?_⟩
      cases hat : Atoi count with
      | none => simp [hat] at h
      | some n =>
        simp only [hat] at h
        by_cases hn : n ≤ 0
        · simp [hn] at h
        · simp only [hn, if_false] at h
          by_cases hm : unit = ['m']
          · simp only [hm, if_true] at h
            refine ⟨n, hsplit, rfl, by omega, Or.inl ⟨hm, ?_⟩⟩
            exact (congrArg Prod.fst h).symm
          · simp only [hm, if_false] at h
            by_cases hh : unit = ['h']
            · simp only [hh, if_true] at h
              refine ⟨n, hsplit, rfl, by omega, Or.inr ⟨hh, ?_⟩⟩
              exact (congrArg Prod.fst h).symm
            · simp [hh] at h
    · rw [parseRateLimit_of_not_pair s (fun a b e => hp ⟨a, b, e⟩)] at h
      simp at h
  · rintro ⟨count, unit, n, hsplit, hat, hn, hu⟩
    have hn' : ¬ n ≤ 0 := by omega
    rw [parseRateLimit_of_pair s count unit hsplit]
    rcases hu with ⟨hm, hw⟩ | ⟨hh, hw⟩
    · simp [hat, hn', hm, hw]
    · simp [hat, hn', hh, hw]

/-- On an error `ParseRateLimit` returns the zero duration. -/
theorem parseRateLimit_error_zero (s : String) (h : (ParseRateLimit s).2 ≠ none) :
    (ParseRateLimit s).1 = 0 := by
  by_cases hp : ∃ count unit, stringsSplit '/' s.data = [count, unit]
  · obtain ⟨count, unit, hsplit⟩ := hp
    rw [parseRateLimit_of_pair s count unit hsplit] at h ⊢
    cases hat : Atoi count with
    | none => simp
    | some n =>
      simp only [hat] at h ⊢
      by_cases hn : n ≤ 0
      · simp [hn]
      · simp only [hn, if_false] at h ⊢
        by_cases hm : unit = ['m']
        · simp [hm] at h
        · simp only [hm, if_false] at h ⊢
          by_cases hh : unit = ['h']
          · simp [hh] at h
          · simp [hh]
  · rw [parseRateLimit_of_not_pair s (fun a b e => hp ⟨a, b, e⟩)]

/-- A window `ParseRateLimit` returns lies between zero and one hour. -/
theorem parseRateLimit_window_bounds (s : String) (w : Duration)
    (h : ParseRateLimit s = (w, none)) : 0 ≤ w ∧ w ≤ Hour := by
  obtain ⟨count, unit, n, _, _, hn, hu⟩ := (parseRateLimit_ok_iff s w).1 h
  have hMH : Minute ≤ Hour := by decide
  have hM0 : (0 : Int) ≤ Minute := by decide
  have hH0 : (0 : Int) ≤ Hour := by decide
  rcases hu with ⟨_, hw⟩ | ⟨_, hw⟩
  · rw [hw, Int.tdiv_eq_ediv hM0 (le_of_lt hn)]
    refine ⟨Int.ediv_nonneg hM0 (le_of_lt hn), ?_⟩
    exact le_trans (Int.ediv_le_self _ hM0) hMH
  · rw [hw, Int.tdiv_eq_ediv hH0 (le_of_lt hn)]
    exact ⟨Int.ediv_nonneg hH0 (le_of_lt hn), Int.ediv_le_self _ hH0⟩


/-! ## Theorems: the sweep -/

/-- The deleting loop of the sweep, over any list of entries: a key ends up absent when
the list holds an entry for it older than the cutoff, and is untouched otherwise. -/
theorem lookup_foldl_erase (cutoff : Time) (l : List (Sigma fun _ : String => Time))
    (acc : AList (fun _ : String => Time)) (k : String) :
    (l.foldl (fun acc e => if e.2 < cutoff then acc.erase e.1 else acc) acc).lookup k =
      if ∃ e ∈ l, e.1 = k ∧ e.2 < cutoff then none else acc.lookup k := by
  induction l generalizing acc with
  | nil => simp
  | cons e l ih =>
    rw [List.foldl_cons, ih]
    by_cases hl : ∃ e' ∈ l, e'.1 = k ∧ e'.2 < cutoff
    · have : ∃ e' ∈ e :: l, e'.1 = k ∧ e'.2 < cutoff := by
        obtain ⟨e', he', h⟩ := hl
        exact ⟨e', List.mem_cons_of_mem _ he', h⟩
      rw [if_pos hl, if_pos this]
    · rw [if_neg hl]
      by_cases he : e.2 < cutoff
      · rw [if_pos he]
        by_cases hk : e.1 = k
        · have : ∃ e' ∈ e :: l, e'.1 = k ∧ e'.2 < cutoff :=
            ⟨e, List.mem_cons_self _ _, hk, he⟩
          rw [if_pos this, ← hk, AList.lookup_erase]
        · have : ¬ ∃ e' ∈ e :: l, e'.1 = k ∧ e'.2 < cutoff := by
            rintro ⟨e', he', h1, h2⟩
            rcases List.mem_cons.1 he' with rfl | hmem
            · exact hk h1
            · exact hl ⟨e', hmem, h1, h2⟩
          rw [if_neg this, AList.lookup_erase_ne (fun h => hk h.symm)]
      · rw [if_neg he]
        have : ¬ ∃ e' ∈ e :: l, e'.1 = k ∧ e'.2 < cutoff := by
          rintro ⟨e', he', h1, h2⟩
          rcases List.mem_cons.1 he' with rfl | hmem
          · exact he h2
          · exact hl ⟨e', hmem, h1, h2⟩
        rw [if_neg this]

/-- One sweep pass at `now`, key by key: an entry older than `now - 1h` is gone, every
other key is as before. -/
theorem cleanupPass_lookup (rl : RateLimiter) (now : Time) (k : String) :
    (rl.cleanupPass now).requests.lookup k =
      match rl.requests.lookup k with
      | none => none
      | some v => if v < now - Hour then none else some v := by
  unfold RateLimiter.cleanupPass
  simp only
  rw [lookup_foldl_erase]
  have hcut : now + (-1) * Hour = now - Hour := by ring
  rw [hcut]
  cases hk : rl.requests.lookup k with
  | none =>
    have : ¬ ∃ e ∈ rl.requests.entries, e.1 = k ∧ e.2 < now - Hour := by
      rintro ⟨⟨k', v⟩, he, h1, _⟩
      simp only at h1
      subst h1
      have : v ∈ rl.requests.lookup k' := AList.mem_lookup_iff.2 he
      rw [hk] at this
      simp at this
    rw [if_neg this]
  | some v =>
    have hmem : (⟨k, v⟩ : Sigma fun _ : String => Time) ∈ rl.requests.entries :=
      AList.mem_lookup_iff.1 (by rw [hk]; exact rfl)
    by_cases hv : v < now - Hour
    · have : ∃ e ∈ rl.requests.entries, e.1 = k ∧ e.2 < now - Hour := ⟨⟨k, v⟩, hmem, rfl, hv⟩
      simp only [if_pos this, if_pos hv]
    · have : ¬ ∃ e ∈ rl.requests.entries, e.1 = k ∧ e.2 < now - Hour := by
        rintro ⟨⟨k', v'⟩, he, h1, h2⟩
        simp only at h1 h2
        subst h1
        have h3 : v' ∈ rl.requests.lookup k' := AList.mem_lookup_iff.2 he
        rw [hk] at h3
        have : v = v' := by simpa using h3
        subst this
        exact hv h2
      simp only [if_neg this, if_neg hv]

/-- Runs with and without the sweeps agree.  `a` is the limiter of the run with sweeps and
`b` that of the run without; at a time `t` no later than any event still to come, each key
has the same entry in both, or none in `a` and in `b` one more than an hour older than
`t`. -/
theorem run_swept (es : List Event) :
    ∀ (a b : RateLimiter) (t : Time),
      (∀ k, a.requests.lookup k = b.requests.lookup k ∨
        (a.requests.lookup k = none ∧ ∃ v, b.requests.lookup k = some v ∧ v + Hour < t)) →
      (∀ e ∈ es, t ≤ e.time) →
      List.Sorted (· ≤ ·) (es.map Event.time) →
      (∀ ip path w now, Event.allow ip path w now ∈ es → w ≤ Hour) →
      run a es = run b (es.filter Event.isAllow) := by
  induction es with
  | nil => intro a b t _ _ _ _; rfl
  | cons e es ih =>
    intro a b t hrel hge hsorted hwin
    have hsorted' : List.Sorted (· ≤ ·) (es.map Event.time) := by
      simp only [List.map_cons] at hsorted
      exact hsorted.of_cons
    have hlater : ∀ e' ∈ es, e.time ≤ e'.time := by
      intro e' he'
      simp only [List.map_cons] at hsorted
      exact List.rel_of_sorted_cons hsorted _ (List.mem_map_of_mem _ he')
    have hte : t ≤ e.time := hge e (List.mem_cons_self _ _)
    have hwin' : ∀ ip path w now, Event.allow ip path w now ∈ es → w ≤ Hour :=
      fun ip path w now h => hwin ip path w now (List.mem_cons_of_mem _ h)
    cases e with
    | sweep now =>
      simp only [run, List.filter_cons, Event.isAllow, Bool.false_eq_true, if_false]
      refine ih (a.cleanupPass now) b now ?_ hlater hsorted' hwin'
      intro k
      rw [cleanupPass_lookup]
      simp only [Event.time] at hte
      rcases hrel k with heq | ⟨hnone, v, hv, hold⟩
      · cases hk : a.requests.lookup k with
        | none => left; rw [← heq, hk]
        | some v =>
          by_cases hv : v < now - Hour
          · right
            simp only [if_pos hv]
            exact ⟨trivial, v, by rw [← heq, hk], by linarith⟩
          · left
            simp only [if_neg hv]
            rw [← heq, hk]
      · right
        rw [hnone]
        exact ⟨rfl, v, hv, by linarith⟩
    | allow ip path w now =>
      simp only [Event.time] at hte hlater
      have hw : w ≤ Hour := hwin ip path w now (List.mem_cons_self _ _)
      have hres : (a.Allow ip path w now).1 = (b.Allow ip path w now).1 := by
        rw [allow_fst, allow_fst]
        rcases hrel (ip ++ ":" ++ path) with heq | ⟨hnone, v, hv, hold⟩
        · rw [heq]
        · rw [hnone, hv]
          symm
          simp only [decide_eq_true_eq, ge_iff_le]
          linarith
      simp only [run, List.filter_cons, Event.isAllow, if_true, hres]
      congr 1
      refine ih _ _ now ?_ hlater hsorted' hwin'
      intro k
      rw [allow_snd a, allow_snd b, hres]
      by_cases hadm : (b.Allow ip path w now).1 = true
      · simp only [if_pos hadm]
        rw [lookup_insert_eq_ite, lookup_insert_eq_ite]
        by_cases hk : k = ip ++ ":" ++ path
        · left; simp [hk]
        · simp only [if_neg hk]
          rcases hrel k with heq | ⟨hnone, v, hv, hold⟩
          · left; exact heq
          · right; exact ⟨hnone, v, hv, by linarith⟩
      · simp only [if_neg hadm]
        rcases hrel k with heq | ⟨hnone, v, hv, hold⟩
        · left; exact heq
        · right; exact ⟨hnone, v, hv, by linarith⟩

/-- C6: the sweep has no effect on admission.  For events (calls of `Allow` and sweep
passes, the cutoff of a pass being its time minus one hour) at non-decreasing times, all
windows being values `ParseRateLimit` returns without error, every `Allow` call returns
the same boolean as in the run with the sweep passes left out; and an entry a sweep pass
deletes is one on which `Allow`, with any such window and at any time from the pass on,
returns true anyway. -/
theorem sweep_unobservable (rl : RateLimiter) (es : List Event)
    (hmono : List.Sorted (· ≤ ·) (es.map Event.time))
    (hwin : ∀ ip path w now, Event.allow ip path w now ∈ es →
      ∃ s, ParseRateLimit s = (w, none)) :
    run rl es = run rl (es.filter Event.isAllow) ∧
    ∀ (sweepTime : Time) (ip path : String) (v : Time),
      rl.requests.lookup (ip ++ ":" ++ path) = some v →
      (rl.cleanupPass sweepTime).requests.lookup (ip ++ ":" ++ path) = none →
      ∀ (s : String) (w : Duration) (now : Time), ParseRateLimit s = (w, none) →
        sweepTime ≤ now → (rl.Allow ip path w now).1 = true := by
  constructor
  · have hwin' : ∀ ip path w now, Event.allow ip path w now ∈ es → w ≤ Hour := by
      intro ip path w now h
      obtain ⟨s, hs⟩ := hwin ip path w now h
      exact (parseRateLimit_window_bounds s w hs).2
    cases es with
    | nil => rfl
    | cons e es =>
      refine run_swept (e :: es) rl rl e.time (fun k => Or.inl rfl) ?_ hmono hwin'
      intro e' he'
      rcases List.mem_cons.1 he' with rfl | hmem
      · exact le_refl _
      · simp only [List.map_cons] at hmono
        exact List.rel_of_sorted_cons hmono _ (List.mem_map_of_mem _ hmem)
  · intro sweepTime ip path v hv hgone s w now hs hle
    have hw := (parseRateLimit_window_bounds s w hs).2
    rw [cleanupPass_lookup, hv] at hgone
    have hold : v < sweepTime - Hour := by
      by_contra hcon
      simp [hcon] at hgone
    rw [allow_fst, hv]
    simp only [decide_eq_true_eq, ge_iff_le]
    linarith

/-- C6, at a concrete input: a call at 0, a sweep two hours later that deletes the entry,
and a call right after it, with the window of `"1/h"`; with or without the sweep the
results are `[true, true]`. -/
theorem sweep_unobservable_witness :
    ((NewRateLimiter.Allow "10.0.0.1" "/contact" Hour 0).2.cleanupPass
        (2 * Hour)).requests.lookup "10.0.0.1:/contact" = none ∧
    run NewRateLimiter
        [Event.allow "10.0.0.1" "/contact" Hour 0, Event.sweep (2 * Hour),
          Event.allow "10.0.0.1" "/contact" Hour (2 * Hour + 1)] =
      run NewRateLimiter
        ([Event.allow "10.0.0.1" "/contact" Hour 0, Event.sweep (2 * Hour),
          Event.allow "10.0.0.1" "/contact" Hour (2 * Hour + 1)].filter Event.isAllow) :=
  ⟨by decide, (sweep_unobservable NewRateLimiter
    [Event.allow "10.0.0.1" "/contact" Hour 0, Event.sweep (2 * Hour),
      Event.allow "10.0.0.1" "/contact" Hour (2 * Hour + 1)]
    (by decide)
    (by
      intro ip path w now h
      refine ⟨"1/h", ?_⟩
      simp only [List.mem_cons, Event.allow.injEq, List.mem_singleton, reduceCtorEq,
        false_or, or_false, List.not_mem_nil] at h
      rcases h with ⟨_, _, hw, _⟩ | ⟨_, _, hw, _⟩ <;> subst hw <;> decide)).1⟩


/-! ## Theorems: the windows `ParseRateLimit` and `server.New` produce -/

/-- The handlers `server.New` registers, when it returns a server: those registered
before, then one per route, each with the window `ParseRateLimit` gave for the route. -/
theorem New_routes_ok (rs : List Route) :
    ∀ (registered handlers : List (Route × Duration)),
      New.routes rs registered = .ok handlers →
      ∃ added, handlers = registered ++ added ∧
        ∀ p ∈ added, p.1 ∈ rs ∧ ParseRateLimit p.1.RateLimit = (p.2, none) := by
  induction rs with
  | nil =>
    intro registered handlers h
    simp only [New.routes, NewResult.ok.injEq] at h
    exact ⟨[], by simp [h], by simp⟩
  | cons r rs ih =>
    intro registered handlers h
    unfold New.routes at h
    split at h
    · simp at h
    · rename_i window hparse
      split at h
      · simp at h
      · obtain ⟨added, hadd, hall⟩ := ih _ _ h
        refine ⟨(r, window) :: added, by simp [hadd], ?_⟩
        intro p hp
        rcases List.mem_cons.1 hp with rfl | hmem
        · exact ⟨List.mem_cons_self _ _, hparse⟩
        · exact ⟨List.mem_cons_of_mem _ (hall p hmem).1, (hall p hmem).2⟩

/-- C7, as amended: a window `ParseRateLimit` returns without error is never negative, and
it is strictly positive exactly when the count `n` is at most the number of nanoseconds in
the unit (`Minute` for `m`, `Hour` for `h`); hence every window `server.New` hands to a
contact handler is non-negative (it is zero for a larger count). -/
theorem parseRateLimit_window_nonneg (s : String) (w : Duration)
    (h : ParseRateLimit s = (w, none)) :
    0 ≤ w ∧
    (∃ count unit n, stringsSplit '/' s.data = [count, unit] ∧ Atoi count = some n ∧
      (0 < w ↔ (unit = ['m'] ∧ n ≤ Minute) ∨ (unit = ['h'] ∧ n ≤ Hour))) ∧
    ∀ (cfg : Config) (handlers : List (Route × Duration)), New cfg = .ok handlers →
      ∀ p ∈ handlers, 0 ≤ p.2 := by
  refine ⟨(parseRateLimit_window_bounds s w h).1, ?_, ?_⟩
  · obtain ⟨count, unit, n, hsplit, hat, hn, hu⟩ := (parseRateLimit_ok_iff s w).1 h
    refine ⟨count, unit, n, hsplit, hat, ?_⟩
    have hM0 : (0 : Int) ≤ Minute := by decide
    have hH0 : (0 : Int) ≤ Hour := by decide
    have hpos : ∀ u : Int, (0 < u / n ↔ n ≤ u) := by
      intro u
      have := Int.le_ediv_iff_mul_le (a := 1) (b := u) hn
      constructor
      · intro h1
        have h2 : (1 : Int) ≤ u / n := h1
        have := this.1 h2
        linarith
      · intro h1
        have h2 : (1 : Int) ≤ u / n := this.2 (by linarith)
        exact h2
    rcases hu with ⟨hm, hw⟩ | ⟨hh, hw⟩
    · rw [hw, Int.tdiv_eq_ediv hM0 (le_of_lt hn), hpos Minute]
      simp [hm]
    · rw [hw, Int.tdiv_eq_ediv hH0 (le_of_lt hn), hpos Hour]
      simp [hh]
  · intro cfg handlers hnew p hp
    obtain ⟨added, hadd, hall⟩ := New_routes_ok cfg.Routes [] handlers hnew
    rw [hadd, List.nil_append] at hp
    exact (parseRateLimit_window_bounds _ _ (hall p hp).2).1

/-- C7, at concrete inputs: `"5/m"` gives the positive window 12s. -/
theorem parseRateLimit_window_nonneg_witness :
    (0 : Int) ≤ 12 * Second ∧
    ∃ count unit n, stringsSplit '/' "5/m".data = [count, unit] ∧ Atoi count = some n ∧
      (0 < 12 * Second ↔ (unit = ['m'] ∧ n ≤ Minute) ∨ (unit = ['h'] ∧ n ≤ Hour)) :=
  ⟨(parseRateLimit_window_nonneg "5/m" (12 * Second) (by decide)).1,
    (parseRateLimit_window_nonneg "5/m" (12 * Second) (by decide)).2.1⟩

/-- C7 as stated fails: `"60000000001/m"` is accepted with a zero window, and `server.New`
hands that zero window to the route's handler. -/
theorem parseRateLimit_zero_window_counterexample :
    ParseRateLimit "60000000001/m" = (0, none) ∧
    New ⟨⟨8080, "1/m", "*"⟩, [⟨"/contact", "123456:ABCDEF", "42", "60000000001/m"⟩]⟩ =
      .ok [(⟨"/contact", "123456:ABCDEF", "42", "60000000001/m"⟩, 0)] := by
  decide

/-- C8: `ParseRateLimit s` succeeds exactly when `s` is a count, one `'/'` and a unit, with
no `'/'` in the count, the count read by `Atoi` as an integer `n > 0`, and the unit exactly
`"m"` or `"h"`; the window is then `Minute / n` or `Hour / n`.  Every other string gives an
error with the zero duration.  `"5/m"` gives 12s and `"2/h"` 30min; `"0/m"`, `"x/m"`,
`"5/d"`, `"5"` and `"5/m/h"` are rejected. -/
theorem parseRateLimit_spec (s : String) (w : Duration) :
    (ParseRateLimit s = (w, none) ↔
      ∃ (count unit : String) (n : Int), s = count ++ "/" ++ unit ∧ '/' ∉ count.data ∧
        Atoi count.data = some n ∧ 0 < n ∧
        ((unit = "m" ∧ w = Minute / n) ∨ (unit = "h" ∧ w = Hour / n))) ∧
    ((ParseRateLimit s).2 ≠ none → (ParseRateLimit s).1 = 0) ∧
    ParseRateLimit "5/m" = (12 * Second, none) ∧
    ParseRateLimit "2/h" = (30 * Minute, none) ∧
    ∀ bad ∈ ["0/m", "x/m", "5/d", "5", "5/m/h"],
      (ParseRateLimit bad).1 = 0 ∧ (ParseRateLimit bad).2 ≠ none := by
  have hM0 : (0 : Int) ≤ Minute := by decide
  have hH0 : (0 : Int) ≤ Hour := by decide
  refine ⟨?_, parseRateLimit_error_zero s, by decide, by decide, by decide⟩
  rw [parseRateLimit_ok_iff]
  constructor
  · rintro ⟨count, unit, n, hsplit, hat, hn, hu⟩
    obtain ⟨hs, hc, _⟩ := (stringsSplit_eq_pair_iff '/' s.data count unit).1 hsplit
    refine ⟨String.mk count, String.mk unit, n, ?_, hc, hat, hn, ?_⟩
    · apply String.ext
      simp [String.data_append, hs]
    · rcases hu with ⟨hm, hw⟩ | ⟨hh, hw⟩
      · left
        exact ⟨by rw [hm], by rw [hw, Int.tdiv_eq_ediv hM0 (le_of_lt hn)]⟩
      · right
        exact ⟨by rw [hh], by rw [hw, Int.tdiv_eq_ediv hH0 (le_of_lt hn)]⟩
  · rintro ⟨count, unit, n, hs, hc, hat, hn, hu⟩
    have hunit : '/' ∉ unit.data := by
      rcases hu with ⟨hm, _⟩ | ⟨hh, _⟩
      · rw [hm]; decide
      · rw [hh]; decide
    have hsplit : stringsSplit '/' s.data = [count.data, unit.data] := by
      rw [stringsSplit_eq_pair_iff]
      refine ⟨?_, hc, hunit⟩
      rw [hs]
      simp [String.data_append]
    refine ⟨count.data, unit.data, n, hsplit, hat, hn, ?_⟩
    rcases hu with ⟨hm, hw⟩ | ⟨hh, hw⟩
    · left
      exact ⟨by rw [hm], by rw [hw, Int.tdiv_eq_ediv hM0 (le_of_lt hn)]⟩
    · right
      exact ⟨by rw [hh], by rw [hw, Int.tdiv_eq_ediv hH0 (le_of_lt hn)]⟩


/-! ## Theorems: the contact handler -/

/-- The handler, written over the result of the `Allow` call it makes. -/
theorem contactHandler_eq (w : World) (route : Route) (window : Duration)
    (limiter : RateLimiter) (r : Request) (now : Time) :
    contactHandler w route window limiter r now =
      if (limiter.Allow (GetClientIP w r) route.Path window now).1 = true then
        match w.decodeJSON r.Body with
        | none =>
          ⟨400,
            .ErrorResponse
              "Invalid request body. Expected JSON with name, email, and message.",
            (limiter.Allow (GetClientIP w r) route.Path window now).2, []⟩
        | some req =>
          if req.Name = "" ∨ req.Email = "" ∨ req.Message = "" then
            ⟨400, .ErrorResponse "All fields (name, email, message) are required.",
              (limiter.Allow (GetClientIP w r) route.Path window now).2, []⟩
          else
            match w.SendMessage
              ⟨route.BotToken, route.ChatID, req.Name, req.Email, req.Message, req.Source⟩ with
            | some _ =>
              ⟨500, .ErrorResponse "Failed to send message. Please try again later.",
                (limiter.Allow (GetClientIP w r) route.Path window now).2,
                [⟨route.BotToken, route.ChatID, req.Name, req.Email, req.Message,
                  req.Source⟩]⟩
            | none =>
              ⟨200, .SuccessResponse "Message sent successfully.",
                (limiter.Allow (GetClientIP w r) route.Path window now).2,
                [⟨route.BotToken, route.ChatID, req.Name, req.Email, req.Message,
                  req.Source⟩]⟩
      else
        ⟨429, .ErrorResponse "Rate limit exceeded. Please try again later.",
          (limiter.Allow (GetClientIP w r) route.Path window now).2, []⟩ := by
  unfold contactHandler
  rcases hA : limiter.Allow (GetClientIP w r) route.Path window now with ⟨b, l⟩
  cases b
  · simp [hA, StatusTooManyRequests]
  · simp only [hA, if_true]
    cases hd : w.decodeJSON r.Body with
    | none => simp [StatusBadRequest]
    | some req =>
      simp only
      split
      · simp [StatusBadRequest]
      · cases hsend : w.SendMessage
          ⟨route.BotToken, route.ChatID, req.Name, req.Email, req.Message, req.Source⟩ with
        | none => simp [StatusOK]
        | some e => simp [StatusInternalServerError]


/-- C9: the status of a contact handler's response is 429 when the limiter refuses the
resolved identity on the route; otherwise 400 when the body does not decode or one of
name, email, message is empty; otherwise 500 when the notifier returns an error; otherwise
200.  The notifier is called exactly once, with the route's bot token and chat id and the
submitted name, email, message and source, in the 500 and 200 cases, and not at all in the
429 and 400 cases.  With no entry yet for the caller's key (a fresh limiter in particular)
and a notifier that succeeds, a valid POST gets 200 with one notification, and a second
POST by the same identity on the same route before the window has passed (at the same
instant, for a positive window) gets 429 with no notification. -/
theorem contactHandler_status (w : World) (route : Route) (window : Duration)
    (limiter : RateLimiter) (r : Request) (now : Time) :
    ((limiter.Allow (GetClientIP w r) route.Path window now).1 = false →
      (contactHandler w route window limiter r now).status = 429 ∧
      (contactHandler w route window limiter r now).notified = []) ∧
    ((limiter.Allow (GetClientIP w r) route.Path window now).1 = true →
      (w.decodeJSON r.Body = none ∨
        ∃ req, w.decodeJSON r.Body = some req ∧
          (req.Name = "" ∨ req.Email = "" ∨ req.Message = "")) →
      (contactHandler w route window limiter r now).status = 400 ∧
      (contactHandler w route window limiter r now).notified = []) ∧
    (∀ req, (limiter.Allow (GetClientIP w r) route.Path window now).1 = true →
      w.decodeJSON r.Body = some req →
      req.Name ≠ "" → req.Email ≠ "" → req.Message ≠ "" →
      (contactHandler w route window limiter r now).notified =
        [⟨route.BotToken, route.ChatID, req.Name, req.Email, req.Message, req.Source⟩] ∧
      (w.SendMessage
          ⟨route.BotToken, route.ChatID, req.Name, req.Email, req.Message, req.Source⟩ ≠
            none →
        (contactHandler w route window limiter r now).status = 500) ∧
      (w.SendMessage
          ⟨route.BotToken, route.ChatID, req.Name, req.Email, req.Message, req.Source⟩ =
            none →
        (contactHandler w route window limiter r now).status = 200)) ∧
    (∀ req, limiter.requests.lookup (GetClientIP w r ++ ":" ++ route.Path) = none →
      w.decodeJSON r.Body = some req →
      req.Name ≠ "" → req.Email ≠ "" → req.Message ≠ "" →
      w.SendMessage
        ⟨route.BotToken, route.ChatID, req.Name, req.Email, req.Message, req.Source⟩ = none →
      (contactHandler w route window limiter r now).status = 200 ∧
      (contactHandler w route window limiter r now).notified =
        [⟨route.BotToken, route.ChatID, req.Name, req.Email, req.Message, req.Source⟩] ∧
      (∀ (w2 : World) (r2 : Request) (now2 : Time),
        GetClientIP w2 r2 = GetClientIP w r → now2 < now + window →
        (contactHandler w2 route window
          (contactHandler w route window limiter r now).limiter r2 now2).status = 429 ∧
        (contactHandler w2 route window
          (contactHandler w route window limiter r now).limiter r2 now2).notified = []) ∧
      (0 < window →
        (contactHandler w route window
          (contactHandler w route window limiter r now).limiter r now).status = 429 ∧
        (contactHandler w route window
          (contactHandler w route window limiter r now).limiter r now).notified = [])) := by
  have h429 : ∀ (w : World) (limiter : RateLimiter) (r : Request) (now : Time),
      (limiter.Allow (GetClientIP w r) route.Path window now).1 = false →
      (contactHandler w route window limiter r now).status = 429 ∧
      (contactHandler w route window limiter r now).notified = [] := by
    intro w limiter r now h
    rw [contactHandler_eq, if_neg (by simp [h])]
    exact ⟨rfl, rfl⟩
  have hsent : ∀ req, (limiter.Allow (GetClientIP w r) route.Path window now).1 = true →
      w.decodeJSON r.Body = some req →
      req.Name ≠ "" → req.Email ≠ "" → req.Message ≠ "" →
      (contactHandler w route window limiter r now).notified =
        [⟨route.BotToken, route.ChatID, req.Name, req.Email, req.Message, req.Source⟩] ∧
      (contactHandler w route window limiter r now).limiter =
        (limiter.Allow (GetClientIP w r) route.Path window now).2 ∧
      (w.SendMessage
          ⟨route.BotToken, route.ChatID, req.Name, req.Email, req.Message, req.Source⟩ ≠
            none →
        (contactHandler w route window limiter r now).status = 500) ∧
      (w.SendMessage
          ⟨route.BotToken, route.ChatID, req.Name, req.Email, req.Message, req.Source⟩ =
            none →
        (contactHandler w route window limiter r now).status = 200) := by
    intro req hadm hdec hn he hm
    rw [contactHandler_eq, if_pos hadm, hdec]
    simp only [hn, he, hm, or_self, if_false]
    cases hsend : w.SendMessage
        ⟨route.BotToken, route.ChatID, req.Name, req.Email, req.Message, req.Source⟩ with
    | none => simp
    | some e => simp
  refine ⟨h429 w limiter r now, ?_, ?_, ?_⟩
  · intro hadm hbad
    rw [contactHandler_eq, if_pos hadm]
    rcases hbad with hnone | ⟨req, hdec, hempty⟩
    · rw [hnone]
      exact ⟨rfl, rfl⟩
    · rw [hdec]
      simp only
      rw [if_pos hempty]
      exact ⟨rfl, rfl⟩
  · intro req hadm hdec hn he hm
    obtain ⟨h1, _, h3, h4⟩ := hsent req hadm hdec hn he hm
    exact ⟨h1, h3, h4⟩
  · intro req hfresh hdec hn he hm hok
    have hadm : (limiter.Allow (GetClientIP w r) route.Path window now).1 = true := by
      rw [allow_fst, hfresh]
    obtain ⟨h1, h2, _, h4⟩ := hsent req hadm hdec hn he hm
    have hsecond : ∀ (w2 : World) (r2 : Request) (now2 : Time),
        GetClientIP w2 r2 = GetClientIP w r → now2 < now + window →
        (contactHandler w2 route window
          (contactHandler w route window limiter r now).limiter r2 now2).status = 429 ∧
        (contactHandler w2 route window
          (contactHandler w route window limiter r now).limiter r2 now2).notified = [] := by
      intro w2 r2 now2 hip hlt
      apply h429
      rw [h2, hip, allow_next limiter (GetClientIP w r) route.Path window now now2 hadm]
      simp only [decide_eq_false_iff_not, not_le, ge_iff_le]
      linarith
    refine ⟨h4 hok, h1, hsecond, ?_⟩
    intro hpos
    exact hsecond w r now rfl (by linarith)

/-- C9, at a concrete input: on a fresh limiter the sample POST gets 200 with one
notification, and the same POST five nanoseconds later, inside the 12s window, gets 429
with none. -/
theorem contactHandler_status_witness :
    (contactHandler sampleWorld sampleRoute (12 * Second) NewRateLimiter
      (samplePost sampleBody) 100).status = 200 ∧
    (contactHandler sampleWorld sampleRoute (12 * Second) NewRateLimiter
      (samplePost sampleBody) 100).notified =
        [⟨"123456:ABCDEF", "42", "Ada", "ada@example.org", "Hello", ""⟩] ∧
    (contactHandler sampleWorld sampleRoute (12 * Second)
      (contactHandler sampleWorld sampleRoute (12 * Second) NewRateLimiter
        (samplePost sampleBody) 100).limiter (samplePost sampleBody) 105).status = 429 ∧
    (contactHandler sampleWorld sampleRoute (12 * Second)
      (contactHandler sampleWorld sampleRoute (12 * Second) NewRateLimiter
        (samplePost sampleBody) 100).limiter (samplePost sampleBody) 105).notified = [] :=
  have h := (contactHandler_status sampleWorld sampleRoute (12 * Second) NewRateLimiter
    (samplePost sampleBody) 100).2.2.2 ⟨"Ada", "ada@example.org", "Hello", ""⟩
    (by decide) (by decide) (by decide) (by decide) (by decide) (by decide)
  ⟨h.1, h.2.1,
    (h.2.2.1 sampleWorld (samplePost sampleBody) 105 rfl (by decide)).1,
    (h.2.2.1 sampleWorld (samplePost sampleBody) 105 rfl (by decide)).2⟩

/-- C10, as amended: a request answered with 400 was admitted by the limiter first, so the
limiter afterwards is the one before with only the caller's key, the resolved identity,
`":"` and the route's path, set to the time of the request; every other key is as
before. -/
theorem contactHandler_400_limiter (w : World) (route : Route) (window : Duration)
    (limiter : RateLimiter) (r : Request) (now : Time)
    (h : (contactHandler w route window limiter r now).status = 400) :
    (limiter.Allow (GetClientIP w r) route.Path window now).1 = true ∧
    (contactHandler w route window limiter r now).limiter =
      ⟨limiter.requests.insert (GetClientIP w r ++ ":" ++ route.Path) now⟩ ∧
    ∀ k, (contactHandler w route window limiter r now).limiter.requests.lookup k =
      if k = GetClientIP w r ++ ":" ++ route.Path then some now
      else limiter.requests.lookup k := by
  have hadm : (limiter.Allow (GetClientIP w r) route.Path window now).1 = true := by
    by_contra hcon
    rw [contactHandler_eq, if_neg hcon] at h
    simp at h
  have hlim : (contactHandler w route window limiter r now).limiter =
      (limiter.Allow (GetClientIP w r) route.Path window now).2 := by
    rw [contactHandler_eq, if_pos hadm]
    cases hd : w.decodeJSON r.Body with
    | none => rfl
    | some req =>
      simp only
      split
      · rfl
      · cases hsend : w.SendMessage
          ⟨route.BotToken, route.ChatID, req.Name, req.Email, req.Message, req.Source⟩ with
        | none => rfl
        | some e => rfl
  have hins := allow_snd limiter (GetClientIP w r) route.Path window now
  rw [if_pos hadm] at hins
  refine ⟨hadm, by rw [hlim, hins], fun k => ?_⟩
  rw [hlim, hins]
  exact lookup_insert_eq_ite _ _ _ _

/-- C10, at a concrete input: the sample POST with an empty message, on a fresh limiter at
time 100, is answered 400 and leaves the entry `10.0.0.1:/contact ↦ 100`. -/
theorem contactHandler_400_limiter_witness :
    (contactHandler sampleWorld sampleRoute (12 * Second) NewRateLimiter
      (samplePost sampleBodyNoMessage) 100).limiter =
        ⟨NewRateLimiter.requests.insert "10.0.0.1:/contact" 100⟩ :=
  (contactHandler_400_limiter sampleWorld sampleRoute (12 * Second) NewRateLimiter
    (samplePost sampleBodyNoMessage) 100 (by decide)).2.1

/-- C10 as stated fails: the sample POST with an empty message, on a fresh limiter, is
answered 400, and the limiter afterwards differs from the one before: it holds an entry
for the caller's key, so the same caller's next POST inside the window is answered 429. -/
theorem contactHandler_400_mutates_counterexample :
    (contactHandler sampleWorld sampleRoute (12 * Second) NewRateLimiter
      (samplePost sampleBodyNoMessage) 100).status = 400 ∧
    (contactHandler sampleWorld sampleRoute (12 * Second) NewRateLimiter
      (samplePost sampleBodyNoMessage) 100).limiter ≠ NewRateLimiter ∧
    NewRateLimiter.requests.lookup "10.0.0.1:/contact" = none ∧
    (contactHandler sampleWorld sampleRoute (12 * Second) NewRateLimiter
      (samplePost sampleBodyNoMessage) 100).limiter.requests.lookup "10.0.0.1:/contact" =
        some 100 ∧
    (contactHandler sampleWorld sampleRoute (12 * Second)
      (contactHandler sampleWorld sampleRoute (12 * Second) NewRateLimiter
        (samplePost sampleBodyNoMessage) 100).limiter (samplePost sampleBody) 105).status =
          429 := by
  refine ⟨by decide, ?_, by decide, by decide, by decide⟩
  intro hsame
  have hentry : (contactHandler sampleWorld sampleRoute (12 * Second) NewRateLimiter
      (samplePost sampleBodyNoMessage) 100).limiter.requests.lookup "10.0.0.1:/contact" =
        some 100 := by decide
  rw [hsame] at hentry
  exact absurd hentry (by decide)


/-! ## Theorems: `strconv.Atoi` as modelled -/

/-- The digit loop succeeds exactly on digit characters, and then returns the accumulator
shifted by the number of digits plus the decimal value of the digits. -/
theorem parseDigits_eq_some_iff (ds : List Char) :
    ∀ (acc v : Nat), parseDigits ds acc = some v ↔
      (∀ c ∈ ds, '0' ≤ c ∧ c ≤ '9') ∧
      v = acc * 10 ^ ds.length +
        Nat.ofDigits 10 (ds.reverse.map (fun c => c.toNat - '0'.toNat)) := by
  induction ds with
  | nil =>
    intro acc v
    simp [parseDigits, eq_comm]
  | cons c cs ih =>
    intro acc v
    unfold parseDigits
    by_cases hc : '0' ≤ c ∧ c ≤ '9'
    · simp only [digitValue, if_pos hc]
      rw [ih]
      simp only [List.mem_cons, forall_eq_or_imp, hc, true_and, List.reverse_cons,
        List.map_append, List.map_cons, List.map_nil, Nat.ofDigits_append,
        Nat.ofDigits_singleton, List.length_map, List.length_reverse, List.length_cons]
      constructor
      · rintro ⟨h1, h2⟩
        exact ⟨h1, by rw [h2]; ring⟩
      · rintro ⟨h1, h2⟩
        exact ⟨h1, by rw [h2]; ring⟩
    · simp only [digitValue, if_neg hc]
      constructor
      · intro h; simp at h
      · rintro ⟨h1, _⟩
        exact absurd (h1 c (List.mem_cons_self _ _)) hc

/-- The part of `Atoi` after the sign has been taken off. -/
theorem atoi_body_iff (neg : Bool) (digits : List Char) (n : Int) :
    (if digits = [] then none
      else
        match parseDigits digits 0 with
        | none => none
        | some v =>
          if minInt ≤ (if neg then -(v : Int) else (v : Int)) ∧
              (if neg then -(v : Int) else (v : Int)) ≤ maxInt then
            some (if neg then -(v : Int) else (v : Int))
          else none) = some n ↔
      digits ≠ [] ∧ (∀ c ∈ digits, '0' ≤ c ∧ c ≤ '9') ∧
        n = (if neg then -1 else 1) *
          Int.ofNat (Nat.ofDigits 10 (digits.reverse.map (fun c => c.toNat - '0'.toNat))) ∧
        minInt ≤ n ∧ n ≤ maxInt := by
  by_cases hne : digits = []
  · simp [hne]
  · rw [if_neg hne]
    have hval : ∀ v : Nat, (if neg then -(v : Int) else (v : Int)) =
        (if neg then -1 else 1) * (v : Int) := by
      intro v
      cases neg <;> simp
    cases hp : parseDigits digits 0 with
    | none =>
      have hnot : ¬ ∀ c ∈ digits, '0' ≤ c ∧ c ≤ '9' := by
        intro hall
        have := (parseDigits_eq_some_iff digits 0 _).2 ⟨hall, rfl⟩
        rw [hp] at this
        exact Option.noConfusion this
      constructor
      · intro h; exact Option.noConfusion h
      · rintro ⟨_, hall, _⟩
        exact absurd hall hnot
    | some v =>
      obtain ⟨hdig, hv⟩ := (parseDigits_eq_some_iff digits 0 v).1 hp
      simp only [zero_mul, zero_add] at hv
      simp only [hval, Int.ofNat_eq_coe]
      rw [← hv]
      constructor
      · intro h
        by_cases hrange : minInt ≤ (if neg then -1 else 1) * (v : Int) ∧
            (if neg then -1 else 1) * (v : Int) ≤ maxInt
        · rw [if_pos hrange] at h
          have hn := Option.some.inj h
          rw [← hn]
          exact ⟨hne, hdig, rfl, hrange⟩
        · rw [if_neg hrange] at h
          exact Option.noConfusion h
      · rintro ⟨_, _, hn, hrange⟩
        rw [hn] at hrange
        rw [if_pos hrange, hn]

/-- `Atoi` takes off one leading `-` or `+`, then reads the digits. -/
theorem Atoi_cons (c : Char) (cs : List Char) :
    Atoi (c :: cs) =
      if (if c = '-' ∨ c = '+' then cs else c :: cs) = [] then none
      else
        match parseDigits (if c = '-' ∨ c = '+' then cs else c :: cs) 0 with
        | none => none
        | some v =>
          if minInt ≤ (if decide (c = '-') then -(v : Int) else (v : Int)) ∧
              (if decide (c = '-') then -(v : Int) else (v : Int)) ≤ maxInt then
            some (if decide (c = '-') then -(v : Int) else (v : Int))
          else none := rfl

/-- `Atoi` as modelled reads exactly the decimal integers in the range of `int`: an
optional sign `+` or `-`, then one or more decimal digits, the value being the number the
digits write in base ten, negated after `-`. -/
theorem Atoi_eq_some_iff (s : List Char) (n : Int) :
    Atoi s = some n ↔
      ∃ sign digits, s = sign ++ digits ∧ (sign = [] ∨ sign = ['+'] ∨ sign = ['-']) ∧
        digits ≠ [] ∧ (∀ c ∈ digits, '0' ≤ c ∧ c ≤ '9') ∧
        n = (if sign = ['-'] then -1 else 1) *
          Int.ofNat (Nat.ofDigits 10 (digits.reverse.map (fun c => c.toNat - '0'.toNat))) ∧
        minInt ≤ n ∧ n ≤ maxInt := by
  cases s with
  | nil =>
    constructor
    · intro h; exact Option.noConfusion h
    · rintro ⟨sign, digits, hs, _, hne, _⟩
      have := List.append_eq_nil.1 hs.symm
      exact absurd this.2 hne
  | cons c cs =>
    rw [Atoi_cons, atoi_body_iff]
    by_cases hminus : c = '-'
    · subst hminus
      simp only [true_or, if_true, decide_True]
      constructor
      · rintro ⟨hne, hdig, hn, hrange⟩
        exact ⟨['-'], cs, rfl, Or.inr (Or.inr rfl), hne, hdig, by simpa using hn, hrange⟩
      · rintro ⟨sign, digits, hs, hsign, hne, hdig, hn, hrange⟩
        rcases hsign with rfl | rfl | rfl
        · cases digits with
          | nil => exact absurd rfl hne
          | cons d ds =>
            have hd : d = '-' := by
              have := List.cons.inj hs
              exact this.1.symm
            have := (hdig d (List.mem_cons_self _ _)).1
            rw [hd] at this
            exact absurd this (by decide)
        · exact absurd (List.cons.inj hs).1 (by decide)
        · have hcs : cs = digits := (List.cons.inj hs).2
          subst hcs
          exact ⟨hne, hdig, by simpa using hn, hrange⟩
    · by_cases hplus : c = '+'
      · subst hplus
        simp only [or_true, if_true, hminus, decide_False, Bool.false_eq_true, if_false]
        constructor
        · rintro ⟨hne, hdig, hn, hrange⟩
          refine ⟨['+'], cs, rfl, Or.inr (Or.inl rfl), hne, hdig, ?_, hrange⟩
          rw [hn]; simp
        · rintro ⟨sign, digits, hs, hsign, hne, hdig, hn, hrange⟩
          rcases hsign with rfl | rfl | rfl
          · cases digits with
            | nil => exact absurd rfl hne
            | cons d ds =>
              have hd : d = '+' := (List.cons.inj hs).1.symm
              have := (hdig d (List.mem_cons_self _ _)).1
              rw [hd] at this
              exact absurd this (by decide)
          · have hcs : cs = digits := (List.cons.inj hs).2
            subst hcs
            refine ⟨hne, hdig, ?_, hrange⟩
            rw [hn]; simp
          · exact absurd (List.cons.inj hs).1 (by decide)
      · have hnot : ¬ (c = '-' ∨ c = '+') := by simp [hminus, hplus]
        simp only [if_neg hnot]
        simp only [hminus, decide_False, Bool.false_eq_true, if_false]
        constructor
        · rintro ⟨hne, hdig, hn, hrange⟩
          refine ⟨[], c :: cs, rfl, Or.inl rfl, hne, hdig, ?_, hrange⟩
          rw [hn]; simp
        · rintro ⟨sign, digits, hs, hsign, hne, hdig, hn, hrange⟩
          rcases hsign with rfl | rfl | rfl
          · simp only [List.nil_append] at hs
            subst hs
            refine ⟨hne, hdig, ?_, hrange⟩
            rw [hn]; simp
          · exact absurd (List.cons.inj hs).1 hplus
          · exact absurd (List.cons.inj hs).1 hminus

/-! ## Theorems: keys of slash-free identities -/

/-- An identity without `'/'` and a route path that begins with `'/'` can be read back
from their key: two such pairs with the same key are the same pair. -/
theorem key_injective_of_slash (i1 r1 i2 r2 : String)
    (hi1 : '/' ∉ i1.data) (hi2 : '/' ∉ i2.data)
    (hr1 : r1.data.head? = some '/') (hr2 : r2.data.head? = some '/')
    (hkey : i1 ++ ":" ++ r1 = i2 ++ ":" ++ r2) : i1 = i2 ∧ r1 = r2 := by
  obtain ⟨p1, hp1⟩ : ∃ p, r1.data = '/' :: p := by
    cases h : r1.data with
    | nil => rw [h] at hr1; simp at hr1
    | cons c p => rw [h] at hr1; simp at hr1; exact ⟨p, by rw [hr1]⟩
  obtain ⟨p2, hp2⟩ : ∃ p, r2.data = '/' :: p := by
    cases h : r2.data with
    | nil => rw [h] at hr2; simp at hr2
    | cons c p => rw [h] at hr2; simp at hr2; exact ⟨p, by rw [hr2]⟩
  have hd : (i1.data ++ [':']) ++ '/' :: p1 = (i2.data ++ [':']) ++ '/' :: p2 := by
    have := congrArg String.data hkey
    simp only [String.data_append, hp1, hp2] at this
    exact this
  have hno1 : '/' ∉ i1.data ++ [':'] := by
    simp only [List.mem_append, List.mem_singleton, not_or]
    exact ⟨hi1, by decide⟩
  have hno2 : '/' ∉ i2.data ++ [':'] := by
    simp only [List.mem_append, List.mem_singleton, not_or]
    exact ⟨hi2, by decide⟩
  have hsplit := congrArg (stringsSplit '/') hd
  rw [stringsSplit_append '/' _ p1 hno1, stringsSplit_append '/' _ p2 hno2] at hsplit
  have hhead := (List.cons.inj hsplit).1
  have hi : i1.data = i2.data := List.append_cancel_right hhead
  have hi' : i1 = i2 := String.ext hi
  refine ⟨hi', ?_⟩
  rw [hi] at hd
  have hp : p1 = p2 := by
    have := List.append_cancel_left hd
    exact (List.cons.inj this).2
  exact String.ext (by rw [hp1, hp2, hp])

/-- For identities without `'/'` (every IPv4 or IPv6 address) and route paths that begin
with `'/'`, calls of `Allow` for different (identity, route) pairs do not interfere: the
result of `Allow(i1, r1, w)` is the same whether or not `Allow(i2, r2, w')` was called
just before. -/
theorem allow_noninterference_of_slash (rl : RateLimiter) (i1 r1 i2 r2 : String)
    (w w' : Duration) (t t' : Time)
    (hi1 : '/' ∉ i1.data) (hi2 : '/' ∉ i2.data)
    (hr1 : r1.data.head? = some '/') (hr2 : r2.data.head? = some '/')
    (hpair : (i1, r1) ≠ (i2, r2)) :
    ((rl.Allow i2 r2 w' t').2.Allow i1 r1 w t).1 = (rl.Allow i1 r1 w t).1 := by
  have hne : i1 ++ ":" ++ r1 ≠ i2 ++ ":" ++ r2 := by
    intro hkey
    obtain ⟨h1, h2⟩ := key_injective_of_slash i1 r1 i2 r2 hi1 hi2 hr1 hr2 hkey
    exact hpair (by rw [h1, h2])
  exact (allow_frame rl i1 r1 i2 r2 w w' t t' hne).1

/-- The same at a concrete input: an IPv6 peer on `/contact` after an IPv4 peer on
`/contact:v2`. -/
theorem allow_noninterference_of_slash_witness :
    ((NewRateLimiter.Allow "10.0.0.1" "/contact:v2" 60 100).2.Allow
        "::1" "/contact" 60 100).1 =
      (NewRateLimiter.Allow "::1" "/contact" 60 100).1 :=
  allow_noninterference_of_slash NewRateLimiter "::1" "/contact" "10.0.0.1" "/contact:v2"
    60 60 100 100 (by decide) (by decide) (by decide) (by decide) (by decide)


/-! ## Theorems: an empty message, and the resolved identity -/

/-- C11, as amended: a POST whose body decodes to an empty `message` makes no call of the
notifier, whatever the limiter holds; it is answered 400 when the limiter admits the
caller's key and 429 when it refuses it, in particular while the key is still cooling
down, since the rate check runs before the body is read. -/
theorem contactHandler_empty_message (w : World) (route : Route) (window : Duration)
    (limiter : RateLimiter) (r : Request) (now : Time) (req : ContactRequest)
    (hdec : w.decodeJSON r.Body = some req) (hmsg : req.Message = "") :
    (contactHandler w route window limiter r now).notified = [] ∧
    ((limiter.Allow (GetClientIP w r) route.Path window now).1 = true →
      (contactHandler w route window limiter r now).status = 400) ∧
    ((limiter.Allow (GetClientIP w r) route.Path window now).1 = false →
      (contactHandler w route window limiter r now).status = 429) ∧
    (∀ last, limiter.requests.lookup (GetClientIP w r ++ ":" ++ route.Path) = some last →
      now - last < window → (contactHandler w route window limiter r now).status = 429) := by
  have hempty : req.Name = "" ∨ req.Email = "" ∨ req.Message = "" := Or.inr (Or.inr hmsg)
  have h400 : (limiter.Allow (GetClientIP w r) route.Path window now).1 = true →
      (contactHandler w route window limiter r now).status = 400 ∧
      (contactHandler w route window limiter r now).notified = [] := by
    intro hadm
    rw [contactHandler_eq, if_pos hadm, hdec]
    simp only
    rw [if_pos hempty]
    exact ⟨rfl, rfl⟩
  have h429 : (limiter.Allow (GetClientIP w r) route.Path window now).1 = false →
      (contactHandler w route window limiter r now).status = 429 ∧
      (contactHandler w route window limiter r now).notified = [] := by
    intro hrej
    rw [contactHandler_eq, if_neg (by simp [hrej])]
    exact ⟨rfl, rfl⟩
  refine ⟨?_, fun h => (h400 h).1, fun h => (h429 h).1, ?_⟩
  · cases hA : (limiter.Allow (GetClientIP w r) route.Path window now).1 with
    | true => exact (h400 hA).2
    | false => exact (h429 hA).2
  · intro last hlast hcool
    refine (h429 ?_).1
    rw [allow_fst, hlast]
    simp only [decide_eq_false_iff_not, not_le, ge_iff_le]
    exact hcool

/-- C11, at a concrete input: the sample POST with an empty message on a fresh limiter is
answered 400 with no notification. -/
theorem contactHandler_empty_message_witness :
    (contactHandler sampleWorld sampleRoute (12 * Second) NewRateLimiter
      (samplePost sampleBodyNoMessage) 100).notified = [] ∧
    (contactHandler sampleWorld sampleRoute (12 * Second) NewRateLimiter
      (samplePost sampleBodyNoMessage) 100).status = 400 :=
  have h := contactHandler_empty_message sampleWorld sampleRoute (12 * Second)
    NewRateLimiter (samplePost sampleBodyNoMessage) 100 ⟨"Ada", "ada@example.org", "", ""⟩
    (by decide) rfl
  ⟨h.1, h.2.1 (by decide)⟩

/-- C11 as stated fails: after the sample POST was admitted at time 100, the caller's key
is cooling down, and the POST with an empty message five nanoseconds later is answered
429, not 400. -/
theorem contactHandler_empty_message_counterexample :
    sampleWorld.decodeJSON (samplePost sampleBodyNoMessage).Body =
      some ⟨"Ada", "ada@example.org", "", ""⟩ ∧
    (contactHandler sampleWorld sampleRoute (12 * Second) NewRateLimiter
      (samplePost sampleBody) 100).limiter.requests.lookup "10.0.0.1:/contact" = some 100 ∧
    (contactHandler sampleWorld sampleRoute (12 * Second)
      (contactHandler sampleWorld sampleRoute (12 * Second) NewRateLimiter
        (samplePost sampleBody) 100).limiter (samplePost sampleBodyNoMessage) 105).status =
          429 := by
  decide

/-- The first piece `strings.Split` returns is the string up to its first separator. -/
theorem stringsSplit_head (sep : Char) (s : List Char) :
    (stringsSplit sep s).head? = some (s.takeWhile (fun c => c ≠ sep)) := by
  induction s with
  | nil => rfl
  | cons c cs ih =>
    by_cases hc : c = sep
    · simp [stringsSplit, hc]
    · unfold stringsSplit
      rw [if_neg hc]
      cases hsp : stringsSplit sep cs with
      | nil => exact absurd hsp (stringsSplit_ne_nil sep cs)
      | cons p ps =>
        rw [hsp] at ih
        simp only [List.head?_cons, Option.some.injEq] at ih
        simp [List.takeWhile_cons, hc, ih]

/-- C12, as amended: for a non-empty `X-Forwarded-For` value, `GetClientIP` returns the
first comma-separated value of the header exactly as it stands, with no white space
removed, which is the whole header value when it holds no comma. -/
theorem getClientIP_forwarded (w : World) (r : Request) (hxff : r.XForwardedFor ≠ "") :
    (stringsSplit ',' r.XForwardedFor.data).head? = some (GetClientIP w r).data ∧
    (',' ∉ r.XForwardedFor.data → GetClientIP w r = r.XForwardedFor) := by
  have hget : GetClientIP w r =
      String.mk (r.XForwardedFor.data.takeWhile (fun c => c ≠ ',')) := by
    unfold GetClientIP
    rw [if_pos hxff]
  refine ⟨by rw [hget, stringsSplit_head], ?_⟩
  intro hno
  rw [hget]
  apply String.ext
  simp only
  rw [List.takeWhile_eq_self_iff]
  intro c hc
  simp only [ne_eq, decide_not, Bool.not_eq_true', decide_eq_false_iff_not]
  rintro rfl
  exact hno hc

/-- C12, at a concrete input: the usual form of the header, a comma and a blank between
the addresses. -/
theorem getClientIP_forwarded_witness :
    (stringsSplit ',' "10.0.0.1, 10.0.0.2".data).head? =
      some (GetClientIP sampleWorld ⟨"POST", "10.0.0.1, 10.0.0.2", "", "10.9.9.9:80", ""⟩).data ∧
    GetClientIP sampleWorld ⟨"POST", "10.0.0.1, 10.0.0.2", "", "10.9.9.9:80", ""⟩ =
      "10.0.0.1" :=
  ⟨(getClientIP_forwarded sampleWorld ⟨"POST", "10.0.0.1, 10.0.0.2", "", "10.9.9.9:80", ""⟩
      (by decide)).1, by decide⟩

/-- C12 as stated fails: for the header value `10.0.0.1 , 10.0.0.2` the first
comma-separated value trimmed is `10.0.0.1`, and `GetClientIP` returns `10.0.0.1`
followed by a blank. -/
theorem getClientIP_not_trimmed_counterexample :
    (stringsSplit ',' "10.0.0.1 , 10.0.0.2".data).head?.map (fun v => String.mk (TrimSpace v))
      = some "10.0.0.1" ∧
    GetClientIP sampleWorld ⟨"POST", "10.0.0.1 , 10.0.0.2", "", "10.9.9.9:80", ""⟩ =
      "10.0.0.1 " ∧
    GetClientIP sampleWorld ⟨"POST", "10.0.0.1 , 10.0.0.2", "", "10.9.9.9:80", ""⟩ ≠
      "10.0.0.1" := by
  decide

/-- C13: `GetClientIP` resolves the identity by strict precedence.  With a non-empty
`X-Forwarded-For` the result is the same for any two requests, in any two worlds, that
carry the same `X-Forwarded-For`; with an empty `X-Forwarded-For` and a non-empty
`X-Real-IP` it is the `X-Real-IP` value; with both empty it is the host `net.SplitHostPort`
gives for `RemoteAddr`, and `RemoteAddr` itself when `net.SplitHostPort` fails. -/
theorem getClientIP_precedence (w : World) (r : Request) :
    (r.XForwardedFor ≠ "" → ∀ (w' : World) (r' : Request),
      r'.XForwardedFor = r.XForwardedFor → GetClientIP w' r' = GetClientIP w r) ∧
    (r.XForwardedFor = "" → r.XRealIP ≠ "" → GetClientIP w r = r.XRealIP) ∧
    (r.XForwardedFor = "" → r.XRealIP = "" →
      (∀ host port, w.SplitHostPort r.RemoteAddr = some (host, port) →
        GetClientIP w r = host) ∧
      (w.SplitHostPort r.RemoteAddr = none → GetClientIP w r = r.RemoteAddr)) := by
  refine ⟨?_, ?_, ?_⟩
  · intro hxff w' r' hsame
    unfold GetClientIP
    rw [hsame, if_pos hxff, if_pos hxff]
  · intro hxff hxri
    unfold GetClientIP
    rw [if_neg (by simp [hxff]), if_pos hxri]
  · intro hxff hxri
    have hget : GetClientIP w r =
        match w.SplitHostPort r.RemoteAddr with
        | none => r.RemoteAddr
        | some (ip, _) => ip := by
      unfold GetClientIP
      rw [if_neg (by simp [hxff]), if_neg (by simp [hxri])]
    refine ⟨?_, ?_⟩
    · intro host port hsplit
      rw [hget, hsplit]
    · intro hsplit
      rw [hget, hsplit]

/-- C13, at concrete inputs: a forwarded request, a request with only `X-Real-IP`, and
two plain requests, one whose peer address splits and one whose peer address does not. -/
theorem getClientIP_precedence_witness :
    GetClientIP ⟨fun _ => some ("10.0.0.1", "4711"), fun _ => none, fun _ => none⟩
      ⟨"POST", "10.0.0.7", "10.0.0.8", "10.0.0.1:4711", ""⟩ = "10.0.0.7" ∧
    GetClientIP ⟨fun _ => some ("10.0.0.1", "4711"), fun _ => none, fun _ => none⟩
      ⟨"POST", "", "10.0.0.8", "10.0.0.1:4711", ""⟩ = "10.0.0.8" ∧
    GetClientIP ⟨fun _ => some ("10.0.0.1", "4711"), fun _ => none, fun _ => none⟩
      ⟨"POST", "", "", "10.0.0.1:4711", ""⟩ = "10.0.0.1" ∧
    GetClientIP sampleWorld ⟨"POST", "", "", "10.0.0.1", ""⟩ = "10.0.0.1" :=
  ⟨by decide,
    (getClientIP_precedence ⟨fun _ => some ("10.0.0.1", "4711"), fun _ => none, fun _ => none⟩
      ⟨"POST", "", "10.0.0.8", "10.0.0.1:4711", ""⟩).2.1 rfl (by decide),
    ((getClientIP_precedence ⟨fun _ => some ("10.0.0.1", "4711"), fun _ => none, fun _ => none⟩
      ⟨"POST", "", "", "10.0.0.1:4711", ""⟩).2.2 rfl rfl).1 "10.0.0.1" "4711" rfl,
    ((getClientIP_precedence sampleWorld ⟨"POST", "", "", "10.0.0.1", ""⟩).2.2 rfl rfl).2 rfl⟩

/-! ## Theorems: CORS -/

/-- C14 fails on the code: with the allowed-origins value `"*"`, `isOriginAllowed` is true
for every origin, so `ServeHTTP` takes its first branch and sets
`Access-Control-Allow-Origin` to the request's `Origin` value, whatever it is: the value
of an arbitrary site, or the empty string when the header is absent.  The branch that
would set the literal `"*"` is never reached. -/
theorem serveHTTP_star_reflects_origin (origin method : String) :
    (ServeHTTP "*" origin method).AccessControlAllowOrigin = some origin ∧
    (ServeHTTP "*" "https://evil.example" "POST").AccessControlAllowOrigin =
      some "https://evil.example" ∧
    (ServeHTTP "*" "https://evil.example" "POST").AccessControlAllowOrigin ≠ some "*" ∧
    (ServeHTTP "*" "" "POST").AccessControlAllowOrigin = some "" := by
  refine ⟨?_, by decide, by decide, by decide⟩
  simp [ServeHTTP, isOriginAllowed]

/-- With an allowed-origins value other than `"*"`, an origin is allowed exactly when it
equals some entry of the comma-separated list, the entry trimmed. -/
theorem isOriginAllowed_iff (allowedOrigins origin : String) (h : allowedOrigins ≠ "*") :
    isOriginAllowed allowedOrigins origin = true ↔
      ∃ o ∈ stringsSplit ',' allowedOrigins.data, String.mk (TrimSpace o) = origin := by
  unfold isOriginAllowed
  rw [if_neg h]
  simp [List.any_eq_true]

/-- C15: with an allowed-origins value other than `"*"`, `ServeHTTP` sets
`Access-Control-Allow-Origin` exactly when the request's `Origin` equals some entry of the
comma-separated list after the entry is trimmed; the value is then the request's `Origin`,
and otherwise the header is not set.  With the list `https://a.com,https://b.com` the
origin `https://a.com` is reflected and `https://c.com` gets no header. -/
theorem serveHTTP_allow_list (allowedOrigins origin method : String)
    (h : allowedOrigins ≠ "*") :
    ((ServeHTTP allowedOrigins origin method).AccessControlAllowOrigin ≠ none ↔
      ∃ o ∈ stringsSplit ',' allowedOrigins.data, String.mk (TrimSpace o) = origin) ∧
    ((∃ o ∈ stringsSplit ',' allowedOrigins.data, String.mk (TrimSpace o) = origin) →
      (ServeHTTP allowedOrigins origin method).AccessControlAllowOrigin = some origin) ∧
    ((¬ ∃ o ∈ stringsSplit ',' allowedOrigins.data, String.mk (TrimSpace o) = origin) →
      (ServeHTTP allowedOrigins origin method).AccessControlAllowOrigin = none) ∧
    (ServeHTTP "https://a.com,https://b.com" "https://a.com" method).AccessControlAllowOrigin
      = some "https://a.com" ∧
    (ServeHTTP "https://a.com,https://b.com" "https://c.com" method).AccessControlAllowOrigin
      = none := by
  have hyes : (∃ o ∈ stringsSplit ',' allowedOrigins.data, String.mk (TrimSpace o) = origin) →
      (ServeHTTP allowedOrigins origin method).AccessControlAllowOrigin = some origin := by
    intro hex
    have := (isOriginAllowed_iff allowedOrigins origin h).2 hex
    simp [ServeHTTP, this]
  have hno : (¬ ∃ o ∈ stringsSplit ',' allowedOrigins.data,
      String.mk (TrimSpace o) = origin) →
      (ServeHTTP allowedOrigins origin method).AccessControlAllowOrigin = none := by
    intro hex
    have : isOriginAllowed allowedOrigins origin = false := by
      cases hb : isOriginAllowed allowedOrigins origin with
      | false => rfl
      | true => exact absurd ((isOriginAllowed_iff allowedOrigins origin h).1 hb) hex
    simp [ServeHTTP, this, h]
  refine ⟨?_, hyes, hno, ?_, ?_⟩
  · constructor
    · intro hset
      by_contra hex
      exact hset (hno hex)
    · intro hex
      rw [hyes hex]
      simp
  · have : isOriginAllowed "https://a.com,https://b.com" "https://a.com" = true := by decide
    simp [ServeHTTP, this]
  · have : isOriginAllowed "https://a.com,https://b.com" "https://c.com" = false := by decide
    simp [ServeHTTP, this]

/-- C15, at a concrete input: entries written with blanks around them still match. -/
theorem serveHTTP_allow_list_witness :
    (ServeHTTP "https://a.com , https://b.com" "https://b.com" "POST").AccessControlAllowOrigin
      = some "https://b.com" :=
  (serveHTTP_allow_list "https://a.com , https://b.com" "https://b.com" "POST"
    (by decide)).2.1 ⟨" https://b.com".data, by decide, by decide⟩

/-! ## Theorems: one sweep pass -/

/-- C16: one sweep pass at `now` removes exactly the entries whose timestamp is before
`now - 1h` and leaves every other entry with its timestamp; afterwards every timestamp is
at least `now - 1h`, and every key present was present before, with the same timestamp. -/
theorem cleanupPass_spec (rl : RateLimiter) (now : Time) (k : String) :
    (∀ v, rl.requests.lookup k = some v → v < now - Hour →
      (rl.cleanupPass now).requests.lookup k = none) ∧
    (∀ v, rl.requests.lookup k = some v → ¬ v < now - Hour →
      (rl.cleanupPass now).requests.lookup k = some v) ∧
    (rl.requests.lookup k = none → (rl.cleanupPass now).requests.lookup k = none) ∧
    (∀ v, (rl.cleanupPass now).requests.lookup k = some v →
      now - Hour ≤ v ∧ rl.requests.lookup k = some v) ∧
    (k ∈ (rl.cleanupPass now).requests.keys → k ∈ rl.requests.keys) := by
  have hlook := cleanupPass_lookup rl now k
  have hafter : ∀ v, (rl.cleanupPass now).requests.lookup k = some v →
      now - Hour ≤ v ∧ rl.requests.lookup k = some v := by
    intro v hv
    rw [hlook] at hv
    cases hk : rl.requests.lookup k with
    | none => rw [hk] at hv; simp at hv
    | some v' =>
      rw [hk] at hv
      by_cases hold : v' < now - Hour
      · simp [hold] at hv
      · simp only [if_neg hold, Option.some.injEq] at hv
        subst hv
        exact ⟨not_lt.1 hold, rfl⟩
  refine ⟨?_, ?_, ?_, hafter, ?_⟩
  · intro v hv hold
    rw [hlook, hv]
    simp [hold]
  · intro v hv hold
    rw [hlook, hv]
    simp [hold]
  · intro hnone
    rw [hlook, hnone]
  · intro hmem
    rw [← AList.mem_keys, ← AList.lookup_isSome] at hmem
    rw [← AList.mem_keys, ← AList.lookup_isSome]
    obtain ⟨v, hv⟩ := Option.isSome_iff_exists.1 hmem
    rw [(hafter v hv).2]
    rfl

/-- C16, at a concrete input: of two entries, stamped 0 and one hour, a pass at two hours
removes the first and keeps the second. -/
theorem cleanupPass_spec_witness :
    ((((NewRateLimiter.Allow "10.0.0.1" "/contact" Hour 0).2.Allow
        "10.0.0.2" "/contact" Hour Hour).2.cleanupPass (2 * Hour)).requests.lookup
          "10.0.0.1:/contact" = none) ∧
    ((((NewRateLimiter.Allow "10.0.0.1" "/contact" Hour 0).2.Allow
        "10.0.0.2" "/contact" Hour Hour).2.cleanupPass (2 * Hour)).requests.lookup
          "10.0.0.2:/contact" = some Hour) :=
  ⟨(cleanupPass_spec ((NewRateLimiter.Allow "10.0.0.1" "/contact" Hour 0).2.Allow
        "10.0.0.2" "/contact" Hour Hour).2 (2 * Hour) "10.0.0.1:/contact").1 0
      (by decide) (by decide),
    (cleanupPass_spec ((NewRateLimiter.Allow "10.0.0.1" "/contact" Hour 0).2.Allow
        "10.0.0.2" "/contact" Hour Hour).2 (2 * Hour) "10.0.0.2:/contact").2.1 Hour
      (by decide) (by decide)⟩

/-! ## Theorems: `Load` after parsing -/

/-- The route loop of `Load` succeeds exactly when no route misses a required field, and
then returns the routes with each empty rate-limit spec replaced by the server's. -/
theorem load_routes_ok_iff (serverRateLimit : String) (rs : List Route) :
    ∀ (i : Nat) (out : List Route),
      Load.routes serverRateLimit i rs = .ok out ↔
        (∀ r ∈ rs, r.Path ≠ "" ∧ r.BotToken ≠ "" ∧ r.ChatID ≠ "") ∧
        out = rs.map (fun r =>
          if r.RateLimit = "" then { r with RateLimit := serverRateLimit } else r) := by
  induction rs with
  | nil =>
    intro i out
    simp [Load.routes, eq_comm]
  | cons r rest ih =>
    intro i out
    unfold Load.routes
    by_cases hp : r.Path = ""
    · simp [hp]
    · by_cases hb : r.BotToken = ""
      · simp [hp, hb]
      · by_cases hc : r.ChatID = ""
        · simp [hp, hb, hc]
        · simp only [hp, hb, hc, if_false]
          cases hrest : Load.routes serverRateLimit (i + 1) rest with
          | error e =>
            simp only [false_iff, reduceCtorEq]
            rintro ⟨hall, _⟩
            have := (ih (i + 1) _).2
              ⟨fun r' hr' => hall r' (List.mem_cons_of_mem _ hr'), rfl⟩
            rw [hrest] at this
            exact Except.noConfusion this
          | ok rest' =>
            obtain ⟨hall, hmap⟩ := (ih (i + 1) rest').1 hrest
            simp only [Except.ok.injEq, List.mem_cons, forall_eq_or_imp, ne_eq, hp, hb, hc,
              not_false_eq_true, and_self, true_and, List.map_cons]
            constructor
            · intro h
              exact ⟨hall, by rw [← h, hmap]⟩
            · rintro ⟨_, h⟩
              rw [h, hmap]

/-- C17: the validation in `Load` fails exactly when the route list is empty or some route
has an empty path, bot token or chat id.  When it succeeds, the routes returned are the
given ones, in order, with the same path, bot token and chat id; a route that gave a
rate-limit spec keeps it, a route that gave none gets the server-wide spec, which is
`"1/m"` when the server section gave none; so every returned spec is non-empty. -/
theorem load_validate_spec (cfg : Config) :
    ((∃ e, Load.validate cfg = .error e) ↔
      cfg.Routes = [] ∨
        ∃ r ∈ cfg.Routes, r.Path = "" ∨ r.BotToken = "" ∨ r.ChatID = "") ∧
    (∀ out, Load.validate cfg = .ok out →
      out.Routes = cfg.Routes.map (fun r =>
        if r.RateLimit = "" then
          { r with RateLimit :=
              if cfg.Server.RateLimit = "" then "1/m" else cfg.Server.RateLimit }
        else r) ∧
      (∀ r ∈ out.Routes, r.RateLimit ≠ "") ∧
      out.Routes.map Route.Path = cfg.Routes.map Route.Path ∧
      out.Routes.map Route.BotToken = cfg.Routes.map Route.BotToken ∧
      out.Routes.map Route.ChatID = cfg.Routes.map Route.ChatID) := by
  have hunfold : Load.validate cfg =
      match Load.routes (if cfg.Server.RateLimit = "" then "1/m" else cfg.Server.RateLimit)
        0 cfg.Routes with
      | .error e => .error e
      | .ok routes =>
        if routes.length = 0 then .error .noRoutes
        else .ok { Load.defaults cfg with Routes := routes } := rfl
  have hsr : (if cfg.Server.RateLimit = "" then "1/m" else cfg.Server.RateLimit) ≠ "" := by
    by_cases h : cfg.Server.RateLimit = ""
    · rw [if_pos h]; decide
    · rw [if_neg h]; exact h
  constructor
  · rw [hunfold]
    cases hr : Load.routes (if cfg.Server.RateLimit = "" then "1/m" else cfg.Server.RateLimit)
        0 cfg.Routes with
    | error e =>
      simp only [Except.error.injEq, exists_eq', true_iff]
      by_contra hcon
      simp only [not_or, not_exists, not_and] at hcon
      have := (load_routes_ok_iff
        (if cfg.Server.RateLimit = "" then "1/m" else cfg.Server.RateLimit) cfg.Routes 0 _).2
        ⟨fun r hr' => ⟨(hcon.2 r hr').1, (hcon.2 r hr').2.1, (hcon.2 r hr').2.2⟩, rfl⟩
      rw [hr] at this
      exact Except.noConfusion this
    | ok routes =>
      obtain ⟨hall, hmap⟩ := (load_routes_ok_iff _ cfg.Routes 0 routes).1 hr
      simp only
      by_cases hlen : routes.length = 0
      · rw [if_pos hlen]
        simp only [Except.error.injEq, exists_eq', true_iff]
        left
        rw [hmap, List.length_map] at hlen
        exact List.length_eq_zero.1 hlen
      · rw [if_neg hlen]
        simp only [reduceCtorEq, exists_false, false_iff, not_or, not_exists, not_and]
        refine ⟨?_, ?_⟩
        · intro hnil
          rw [hmap, hnil] at hlen
          exact hlen rfl
        · intro r hr'
          exact ⟨(hall r hr').1, (hall r hr').2.1, (hall r hr').2.2⟩
  · intro out hok
    rw [hunfold] at hok
    cases hr : Load.routes (if cfg.Server.RateLimit = "" then "1/m" else cfg.Server.RateLimit)
        0 cfg.Routes with
    | error e => rw [hr] at hok; exact Except.noConfusion hok
    | ok routes =>
      rw [hr] at hok
      simp only at hok
      by_cases hlen : routes.length = 0
      · rw [if_pos hlen] at hok; exact Except.noConfusion hok
      · rw [if_neg hlen] at hok
        obtain ⟨_, hmap⟩ := (load_routes_ok_iff _ cfg.Routes 0 routes).1 hr
        have hout : out.Routes = routes := by
          have := Except.ok.inj hok
          rw [← this]
        rw [hout, hmap]
        refine ⟨rfl, ?_, ?_, ?_, ?_⟩
        · intro r hr'
          obtain ⟨r0, _, hr0⟩ := List.mem_map.1 hr'
          rw [← hr0]
          by_cases h0 : r0.RateLimit = ""
          · rw [if_pos h0]; exact hsr
          · rw [if_neg h0]; exact h0
        · rw [List.map_map]
          apply List.map_congr_left
          intro r _
          simp only [Function.comp]
          split <;> rfl
        · rw [List.map_map]
          apply List.map_congr_left
          intro r _
          simp only [Function.comp]
          split <;> rfl
        · rw [List.map_map]
          apply List.map_congr_left
          intro r _
          simp only [Function.comp]
          split <;> rfl

/-- C17, at concrete inputs: one route with its own spec and one without, server section
empty; and the two ways to fail. -/
theorem load_validate_spec_witness :
    Load.validate ⟨⟨0, "", ""⟩,
        [⟨"/contact", "123456:ABCDEF", "42", "5/m"⟩, ⟨"/jobs", "123456:ABCDEF", "43", ""⟩]⟩ =
      .ok ⟨⟨8080, "1/m", "*"⟩,
        [⟨"/contact", "123456:ABCDEF", "42", "5/m"⟩,
          ⟨"/jobs", "123456:ABCDEF", "43", "1/m"⟩]⟩ ∧
    (∃ e, Load.validate ⟨⟨0, "", ""⟩, []⟩ = .error e) ∧
    (∃ e, Load.validate ⟨⟨0, "", ""⟩, [⟨"/contact", "", "42", "5/m"⟩]⟩ = .error e) :=
  ⟨rfl,
    (load_validate_spec ⟨⟨0, "", ""⟩, []⟩).1.2 (Or.inl rfl),
    (load_validate_spec ⟨⟨0, "", ""⟩, [⟨"/contact", "", "42", "5/m"⟩]⟩).1.2
      (Or.inr ⟨⟨"/contact", "", "42", "5/m"⟩, by simp, Or.inr (Or.inl rfl)⟩)⟩

/-! ## Theorems: the log line of `server.New` -/

/-- C19 fails on the code: a configuration with the bot token `"abc"` passes the
validation in `Load`, its rate-limit spec parses, and `server.New` panics on the slice
`r.BotToken[:6]` of its log line. -/
theorem new_panics_on_short_token :
    Load.validate ⟨⟨8080, "1/m", "*"⟩, [⟨"/contact", "abc", "42", ""⟩]⟩ =
      .ok ⟨⟨8080, "1/m", "*"⟩, [⟨"/contact", "abc", "42", "1/m"⟩]⟩ ∧
    ParseRateLimit "1/m" = (Minute, none) ∧
    New ⟨⟨8080, "1/m", "*"⟩, [⟨"/contact", "abc", "42", "1/m"⟩]⟩ = .panic ∧
    New ⟨⟨8080, "1/m", "*"⟩, [⟨"/contact", "123456:ABCDEF", "42", "1/m"⟩]⟩ =
      .ok [(⟨"/contact", "123456:ABCDEF", "42", "1/m"⟩, Minute)] := by
  refine ⟨rfl, by decide, by decide, by decide⟩

/-! ## Theorems: `expandEnv` -/

/-- After a substitution the loop passes over the skipped characters without output. -/
theorem expandEnv_loop_skip (getenv : String → String) (pre rest : List Char) :
    expandEnv.loop getenv pre.length (pre ++ rest) = expandEnv.loop getenv 0 rest := by
  induction pre with
  | nil => rfl
  | cons c pre ih =>
    simp only [List.length_cons, List.cons_append, expandEnv.loop]
    exact ih

/-- One step of the loop at a character it does not skip. -/
theorem expandEnv_loop_cons (getenv : String → String) (c : Char) (cs : List Char) :
    expandEnv.loop getenv 0 (c :: cs) =
      if c = '$' ∧ cs.head? = some '{' then
        match expandEnv.closing cs.tail with
        | some n =>
          (getenv (String.mk (cs.tail.take n))).data ++ expandEnv.loop getenv (n + 2) cs
        | none => c :: expandEnv.loop getenv 0 cs
      else c :: expandEnv.loop getenv 0 cs := by
  rw [expandEnv.loop]

/-- Without a closing brace the search for one fails. -/
theorem expandEnv_closing_none (s : List Char) (h : '}' ∉ s) : expandEnv.closing s = none := by
  induction s with
  | nil => rfl
  | cons c cs ih =>
    have hc : c ≠ '}' := fun e => h (by simp [e])
    have hcs : '}' ∉ cs := fun e => h (by simp [e])
    simp [expandEnv.closing, hc, ih hcs]

/-- The search for the closing brace stops at the first one. -/
theorem expandEnv_closing_some (name b : List Char) (h : '}' ∉ name) :
    expandEnv.closing (name ++ '}' :: b) = some name.length := by
  induction name with
  | nil => simp [expandEnv.closing]
  | cons c cs ih =>
    have hc : c ≠ '}' := fun e => h (by simp [e])
    have hcs : '}' ∉ cs := fun e => h (by simp [e])
    simp [expandEnv.closing, hc, ih hcs]

/-- Characters that hold no closing brace are copied as they stand. -/
theorem expandEnv_loop_no_closing (getenv : String → String) (s : List Char)
    (h : '}' ∉ s) : expandEnv.loop getenv 0 s = s := by
  induction s with
  | nil => rfl
  | cons c cs ih =>
    have hcs : '}' ∉ cs := fun e => h (by simp [e])
    have htail : '}' ∉ cs.tail := fun e => hcs (List.mem_of_mem_tail e)
    rw [expandEnv_loop_cons]
    split
    · rw [expandEnv_closing_none cs.tail htail]
      simp only
      rw [ih hcs]
    · rw [ih hcs]

/-- Characters that hold no `$` followed by `{`, in front of a rest that does not begin
with `{`, are copied as they stand, and the loop goes on with the rest. -/
theorem expandEnv_loop_plain (getenv : String → String) (a rest : List Char)
    (ha : ¬ ['$', '{'] <:+: a) (hrest : rest.head? ≠ some '{') :
    expandEnv.loop getenv 0 (a ++ rest) = a ++ expandEnv.loop getenv 0 rest := by
  induction a with
  | nil => rfl
  | cons c cs ih =>
    have hcs : ¬ ['$', '{'] <:+: cs := fun h => ha (h.trans (List.suffix_cons c cs).isInfix)
    have hcond : ¬ (c = '$' ∧ (cs ++ rest).head? = some '{') := by
      rintro ⟨hc, hhead⟩
      cases cs with
      | nil => exact hrest (by simpa using hhead)
      | cons d ds =>
        simp only [List.cons_append, List.head?_cons, Option.some.injEq] at hhead
        apply ha
        rw [hc, hhead]
        exact ⟨[], ds, rfl⟩
    simp only [List.cons_append]
    rw [expandEnv_loop_cons, if_neg hcond, ih hcs]

/-- C18: `expandEnv` makes one pass from left to right.  A string with no `$` followed by
`{` is returned unchanged.  For `s = a ++ "${" ++ name ++ "}" ++ b` with no `$` followed
by `{` in `a` and no `}` in `name`, the result is `a`, then the value of `name`, then
`expandEnv b`: the value is put in as it stands, not expanded again (and an unset variable,
for which `os.Getenv` gives the empty string, leaves nothing).  A `$`, `{` with no `}`
after it is copied through, with everything that follows it. -/
theorem expandEnv_spec (getenv : String → String) :
    (∀ s : String, ¬ ['$', '{'] <:+: s.data → expandEnv getenv s = s) ∧
    (∀ a name b : String, ¬ ['$', '{'] <:+: a.data → '}' ∉ name.data →
      expandEnv getenv (a ++ "$\x7b" ++ name ++ "\x7d" ++ b) =
        a ++ getenv name ++ expandEnv getenv b) ∧
    (∀ a rest : String, ¬ ['$', '{'] <:+: a.data → '}' ∉ rest.data →
      expandEnv getenv (a ++ "$\x7b" ++ rest) = a ++ "$\x7b" ++ rest) := by
  refine ⟨?_, ?_, ?_⟩
  · intro s hs
    apply String.ext
    have := expandEnv_loop_plain getenv s.data [] hs (by simp)
    simpa [expandEnv, expandEnv.loop] using this
  · intro a name b ha hname
    apply String.ext
    have hdata : (a ++ "$\x7b" ++ name ++ "\x7d" ++ b).data =
        a.data ++ '$' :: '{' :: (name.data ++ '}' :: b.data) := by
      simp [String.data_append]
    have hstep : expandEnv.loop getenv 0 ('$' :: '{' :: (name.data ++ '}' :: b.data)) =
        (getenv name).data ++ expandEnv.loop getenv 0 b.data := by
      rw [expandEnv_loop_cons, if_pos ⟨rfl, rfl⟩]
      simp only [List.tail_cons]
      rw [expandEnv_closing_some name.data b.data hname]
      simp only [List.take_left']
      have hskip := expandEnv_loop_skip getenv ('{' :: (name.data ++ ['}'])) b.data
      have hlen : ('{' :: (name.data ++ ['}'])).length = name.data.length + 2 := by simp
      have happ : ('{' :: (name.data ++ ['}'])) ++ b.data =
          '{' :: (name.data ++ '}' :: b.data) := by simp
      rw [hlen, happ] at hskip
      rw [hskip]
    simp only [expandEnv, hdata]
    rw [expandEnv_loop_plain getenv a.data _ ha (by simp), hstep]
    simp [String.data_append]
  · intro a rest ha hrest
    apply String.ext
    have hdata : (a ++ "$\x7b" ++ rest).data = a.data ++ '$' :: '{' :: rest.data := by
      simp [String.data_append]
    have hstep : expandEnv.loop getenv 0 ('$' :: '{' :: rest.data) =
        '$' :: '{' :: rest.data := by
      rw [expandEnv_loop_cons, if_pos ⟨rfl, rfl⟩]
      simp only [List.tail_cons]
      rw [expandEnv_closing_none rest.data hrest]
      simp only
      rw [expandEnv_loop_no_closing getenv ('{' :: rest.data) (by simp [hrest])]
    simp only [expandEnv, hdata]
    rw [expandEnv_loop_plain getenv a.data _ ha (by simp), hstep]

/-- C18, at a concrete input: with `A` set to the text `${B}` and `B` set to `x`, the
value of `A` is put in unexpanded, `B` is expanded where the string names it, the unset
`C` leaves nothing, and the unclosed `${` at the end is copied. -/
theorem expandEnv_spec_witness :
    expandEnv (fun n => if n = "A" then "$\x7bB\x7d" else if n = "B" then "x" else "")
        "a$\x7bA\x7db$\x7bB\x7dc$\x7bC\x7dd$\x7b" =
      "a$\x7bB\x7dbxcd$\x7b" ∧
    expandEnv (fun n => if n = "A" then "$\x7bB\x7d" else if n = "B" then "x" else "")
        ("a" ++ "$\x7b" ++ "A" ++ "\x7d" ++ "b") =
      "a" ++ "$\x7bB\x7d" ++
        expandEnv (fun n => if n = "A" then "$\x7bB\x7d" else if n = "B" then "x" else "")
          "b" :=
  ⟨by decide,
    (expandEnv_spec
      (fun n => if n = "A" then "$\x7bB\x7d" else if n = "B" then "x" else "")).2.1
      "a" "A" "b" (by decide) (by decide)⟩

/-! ## Theorems: `escapeHTML` -/

/-- One step of `escapeHTML`. -/
theorem escapeHTML_cons (b : UInt8) (rest : List UInt8) :
    escapeHTML (b :: rest) =
      if b = '&'.toUInt8 then "&amp;".data.map Char.toUInt8 ++ escapeHTML rest
      else if b = '<'.toUInt8 then "&lt;".data.map Char.toUInt8 ++ escapeHTML rest
      else if b = '>'.toUInt8 then "&gt;".data.map Char.toUInt8 ++ escapeHTML rest
      else b :: escapeHTML rest := by
  rw [escapeHTML]

/-- Undoing passes over the bytes it has to skip. -/
theorem unescapeHTML_loop_skip (pre rest : List UInt8) :
    unescapeHTML.loop pre.length (pre ++ rest) = unescapeHTML.loop 0 rest := by
  induction pre with
  | nil => rfl
  | cons c pre ih =>
    simp only [List.length_cons, List.cons_append, unescapeHTML.loop]
    exact ih

/-- One step of the undoing pass at a byte it does not skip. -/
theorem unescapeHTML_loop_cons (b : UInt8) (rest : List UInt8) :
    unescapeHTML.loop 0 (b :: rest) =
      if ("&amp;".data.map Char.toUInt8).isPrefixOf (b :: rest) then
        '&'.toUInt8 :: unescapeHTML.loop 4 rest
      else if ("&lt;".data.map Char.toUInt8).isPrefixOf (b :: rest) then
        '<'.toUInt8 :: unescapeHTML.loop 3 rest
      else if ("&gt;".data.map Char.toUInt8).isPrefixOf (b :: rest) then
        '>'.toUInt8 :: unescapeHTML.loop 3 rest
      else b :: unescapeHTML.loop 0 rest := by
  rw [unescapeHTML.loop]

/-- The undoing pass gives back what `escapeHTML` was given. -/
theorem unescapeHTML_escapeHTML (s : List UInt8) : unescapeHTML (escapeHTML s) = s := by
  unfold unescapeHTML
  have hal : 'a'.toUInt8 ≠ 'l'.toUInt8 := by decide
  have hag : 'a'.toUInt8 ≠ 'g'.toUInt8 := by decide
  have hlg : 'l'.toUInt8 ≠ 'g'.toUInt8 := by decide
  have hla : 'l'.toUInt8 ≠ 'a'.toUInt8 := by decide
  have hga : 'g'.toUInt8 ≠ 'a'.toUInt8 := by decide
  have hgl : 'g'.toUInt8 ≠ 'l'.toUInt8 := by decide
  induction s with
  | nil => rfl
  | cons b rest ih =>
    rw [escapeHTML_cons]
    by_cases hamp : b = '&'.toUInt8
    · rw [if_pos hamp, hamp]
      have h4 := unescapeHTML_loop_skip ("amp;".data.map Char.toUInt8) (escapeHTML rest)
      have hcons : "&amp;".data.map Char.toUInt8 ++ escapeHTML rest =
          '&'.toUInt8 :: ("amp;".data.map Char.toUInt8 ++ escapeHTML rest) := rfl
      have hlen : ("amp;".data.map Char.toUInt8).length = 4 := rfl
      rw [hlen] at h4
      rw [hcons, unescapeHTML_loop_cons]
      split_ifs <;> first
        | (exfalso; simp_all [List.isPrefixOf]; done)
        | rw [h4, ih]
    · rw [if_neg hamp]
      by_cases hlt : b = '<'.toUInt8
      · rw [if_pos hlt, hlt]
        have h3 := unescapeHTML_loop_skip ("lt;".data.map Char.toUInt8) (escapeHTML rest)
        have hcons : "&lt;".data.map Char.toUInt8 ++ escapeHTML rest =
            '&'.toUInt8 :: ("lt;".data.map Char.toUInt8 ++ escapeHTML rest) := rfl
        have hlen : ("lt;".data.map Char.toUInt8).length = 3 := rfl
        rw [hlen] at h3
        rw [hcons, unescapeHTML_loop_cons]
        split_ifs <;> first
          | (exfalso; simp_all [List.isPrefixOf]; done)
          | rw [h3, ih]
      · rw [if_neg hlt]
        by_cases hgt : b = '>'.toUInt8
        · rw [if_pos hgt, hgt]
          have h3 := unescapeHTML_loop_skip ("gt;".data.map Char.toUInt8) (escapeHTML rest)
          have hcons : "&gt;".data.map Char.toUInt8 ++ escapeHTML rest =
              '&'.toUInt8 :: ("gt;".data.map Char.toUInt8 ++ escapeHTML rest) := rfl
          have hlen : ("gt;".data.map Char.toUInt8).length = 3 := rfl
          rw [hlen] at h3
          rw [hcons, unescapeHTML_loop_cons]
          split_ifs <;> first
            | (exfalso; simp_all [List.isPrefixOf]; done)
            | rw [h3, ih]
        · rw [if_neg hgt, unescapeHTML_loop_cons]
          have hne : '&'.toUInt8 ≠ b := fun e => hamp e.symm
          split_ifs <;> first
            | (exfalso; simp_all [List.isPrefixOf]; done)
            | rw [ih]

/-- `escapeHTML` leaves no `<` and no `>`. -/
theorem escapeHTML_no_angle (s : List UInt8) :
    '<'.toUInt8 ∉ escapeHTML s ∧ '>'.toUInt8 ∉ escapeHTML s := by
  have h1 : '<'.toUInt8 ∉ "&amp;".data.map Char.toUInt8 := by decide
  have h2 : '<'.toUInt8 ∉ "&lt;".data.map Char.toUInt8 := by decide
  have h3 : '<'.toUInt8 ∉ "&gt;".data.map Char.toUInt8 := by decide
  have h4 : '>'.toUInt8 ∉ "&amp;".data.map Char.toUInt8 := by decide
  have h5 : '>'.toUInt8 ∉ "&lt;".data.map Char.toUInt8 := by decide
  have h6 : '>'.toUInt8 ∉ "&gt;".data.map Char.toUInt8 := by decide
  induction s with
  | nil => exact ⟨List.not_mem_nil _, List.not_mem_nil _⟩
  | cons b rest ih =>
    rw [escapeHTML_cons]
    by_cases hamp : b = '&'.toUInt8
    · rw [if_pos hamp]
      exact ⟨fun h => (List.mem_append.1 h).elim h1 ih.1,
        fun h => (List.mem_append.1 h).elim h4 ih.2⟩
    · rw [if_neg hamp]
      by_cases hlt : b = '<'.toUInt8
      · rw [if_pos hlt]
        exact ⟨fun h => (List.mem_append.1 h).elim h2 ih.1,
          fun h => (List.mem_append.1 h).elim h5 ih.2⟩
      · rw [if_neg hlt]
        by_cases hgt : b = '>'.toUInt8
        · rw [if_pos hgt]
          exact ⟨fun h => (List.mem_append.1 h).elim h3 ih.1,
            fun h => (List.mem_append.1 h).elim h6 ih.2⟩
        · rw [if_neg hgt]
          refine ⟨fun h => ?_, fun h => ?_⟩
          · rcases List.mem_cons.1 h with e | e
            · exact hlt e.symm
            · exact ih.1 e
          · rcases List.mem_cons.1 h with e | e
            · exact hgt e.symm
            · exact ih.2 e

/-- Putting a byte in front keeps the property that every `&` starts an entity, when the
new byte is not `&` or itself starts an entity. -/
theorem entity_starts_cons (b : UInt8) (out : List UInt8)
    (hb : b = '&'.toUInt8 →
      "&amp;".data.map Char.toUInt8 <+: b :: out ∨
      "&lt;".data.map Char.toUInt8 <+: b :: out ∨
      "&gt;".data.map Char.toUInt8 <+: b :: out)
    (hout : ∀ i, out[i]? = some '&'.toUInt8 →
      "&amp;".data.map Char.toUInt8 <+: out.drop i ∨
      "&lt;".data.map Char.toUInt8 <+: out.drop i ∨
      "&gt;".data.map Char.toUInt8 <+: out.drop i) :
    ∀ i, (b :: out)[i]? = some '&'.toUInt8 →
      "&amp;".data.map Char.toUInt8 <+: (b :: out).drop i ∨
      "&lt;".data.map Char.toUInt8 <+: (b :: out).drop i ∨
      "&gt;".data.map Char.toUInt8 <+: (b :: out).drop i := by
  intro i hi
  cases i with
  | zero =>
    simp only [List.getElem?_cons_zero, Option.some.injEq] at hi
    simpa using hb hi
  | succ i =>
    simp only [List.getElem?_cons_succ] at hi
    simpa using hout i hi

/-- In the output of `escapeHTML` every `&` starts one of the three entities. -/
theorem escapeHTML_entity_starts (s : List UInt8) :
    ∀ i, (escapeHTML s)[i]? = some '&'.toUInt8 →
      "&amp;".data.map Char.toUInt8 <+: (escapeHTML s).drop i ∨
      "&lt;".data.map Char.toUInt8 <+: (escapeHTML s).drop i ∨
      "&gt;".data.map Char.toUInt8 <+: (escapeHTML s).drop i := by
  induction s with
  | nil =>
    intro i hi
    simp [escapeHTML] at hi
  | cons b rest ih =>
    rw [escapeHTML_cons]
    by_cases hamp : b = '&'.toUInt8
    · rw [if_pos hamp]
      show ∀ i, ('&'.toUInt8 :: 'a'.toUInt8 :: 'm'.toUInt8 :: 'p'.toUInt8 :: ';'.toUInt8 ::
        escapeHTML rest)[i]? = some '&'.toUInt8 → _
      refine entity_starts_cons _ _ (fun _ => Or.inl ⟨escapeHTML rest, rfl⟩) ?_
      refine entity_starts_cons _ _ (fun h => absurd h (by decide)) ?_
      refine entity_starts_cons _ _ (fun h => absurd h (by decide)) ?_
      refine entity_starts_cons _ _ (fun h => absurd h (by decide)) ?_
      exact entity_starts_cons _ _ (fun h => absurd h (by decide)) ih
    · rw [if_neg hamp]
      by_cases hlt : b = '<'.toUInt8
      · rw [if_pos hlt]
        show ∀ i, ('&'.toUInt8 :: 'l'.toUInt8 :: 't'.toUInt8 :: ';'.toUInt8 ::
          escapeHTML rest)[i]? = some '&'.toUInt8 → _
        refine entity_starts_cons _ _ (fun _ => Or.inr (Or.inl ⟨escapeHTML rest, rfl⟩)) ?_
        refine entity_starts_cons _ _ (fun h => absurd h (by decide)) ?_
        refine entity_starts_cons _ _ (fun h => absurd h (by decide)) ?_
        exact entity_starts_cons _ _ (fun h => absurd h (by decide)) ih
      · rw [if_neg hlt]
        by_cases hgt : b = '>'.toUInt8
        · rw [if_pos hgt]
          show ∀ i, ('&'.toUInt8 :: 'g'.toUInt8 :: 't'.toUInt8 :: ';'.toUInt8 ::
            escapeHTML rest)[i]? = some '&'.toUInt8 → _
          refine entity_starts_cons _ _ (fun _ => Or.inr (Or.inr ⟨escapeHTML rest, rfl⟩)) ?_
          refine entity_starts_cons _ _ (fun h => absurd h (by decide)) ?_
          refine entity_starts_cons _ _ (fun h => absurd h (by decide)) ?_
          exact entity_starts_cons _ _ (fun h => absurd h (by decide)) ih
        · rw [if_neg hgt]
          exact entity_starts_cons _ _ (fun h => absurd h hamp) ih

/-- C20: for every byte string `s`, `escapeHTML s` holds no `<` and no `>`, every `&` in it
is the start of `&amp;`, `&lt;` or `&gt;`, and replacing these three entities back in a
pass from left to right gives `s`; so `escapeHTML` is injective. -/
theorem escapeHTML_spec (s : List UInt8) :
    '<'.toUInt8 ∉ escapeHTML s ∧ '>'.toUInt8 ∉ escapeHTML s ∧
    (∀ i, (escapeHTML s)[i]? = some '&'.toUInt8 →
      "&amp;".data.map Char.toUInt8 <+: (escapeHTML s).drop i ∨
      "&lt;".data.map Char.toUInt8 <+: (escapeHTML s).drop i ∨
      "&gt;".data.map Char.toUInt8 <+: (escapeHTML s).drop i) ∧
    unescapeHTML (escapeHTML s) = s ∧
    Function.Injective escapeHTML :=
  ⟨(escapeHTML_no_angle s).1, (escapeHTML_no_angle s).2, escapeHTML_entity_starts s,
    unescapeHTML_escapeHTML s,
    Function.LeftInverse.injective unescapeHTML_escapeHTML⟩

/-- C20, at a concrete input: a message with markup and an `&`. -/
theorem escapeHTML_spec_witness :
    escapeHTML ("<b>Tom & Jerry</b>".data.map Char.toUInt8) =
      "&lt;b&gt;Tom &amp; Jerry&lt;/b&gt;".data.map Char.toUInt8 ∧
    unescapeHTML (escapeHTML ("<b>Tom & Jerry</b>".data.map Char.toUInt8)) =
      "<b>Tom & Jerry</b>".data.map Char.toUInt8 :=
  ⟨by decide, (escapeHTML_spec ("<b>Tom & Jerry</b>".data.map Char.toUInt8)).2.2.2.1⟩

end Pluma
